import Mathlib

/-!
Verification of the docx2html5 responsive converter pipeline (`src/app.py`,
`src/libre_docx2html5.py`).

The HTML-rewriting core of the program is a sequence of Python `re.sub` calls.
We embed them over `List Char`:

* `scan rule l` models `re.sub(pattern, repl, l)`: it walks the string left to
  right; at each position it asks the pattern matcher `rule` for a match
  starting there.  On a match, `rule` returns the replacement text and the
  remainder of the string after the matched span; the replacement is emitted
  and scanning resumes at the remainder (Python does not rescan replacement
  text within one `re.sub` call).  On no match the character is copied.
* each concrete regular expression of the source becomes one `rule` function
  (`relinkRule`, `whRule`, `headRule`, `bodyRule`, `imgTagRule`, ...), written
  to follow the regex semantics (greedy character classes, lookahead, optional
  groups with backtracking) exactly.

Fuelled structural recursion keeps every definition executable, so concrete
counterexamples and witnesses evaluate by `decide`/`rfl`.
-/

set_option maxRecDepth 100000

namespace DocxConv

abbrev Chars := List Char

/-- Boolean string-head test: `pfx p l` is true iff `p` is an initial segment
of `l`. -/
def pfx : Chars → Chars → Bool
  | [], _ => true
  | _ :: _, [] => false
  | a :: as, b :: bs => decide (a = b) && pfx as bs

/-- Boolean substring test, scanning every start position. -/
def hasInf (pat : Chars) : Chars → Bool
  | [] => pfx pat []
  | c :: cs => pfx pat (c :: cs) || hasInf pat cs

/-- Boolean string-end test. -/
def sfx (p l : Chars) : Bool := pfx p.reverse l.reverse

/-- The maximal run of non-quote characters, i.e. what a greedy `[^"]*`
consumes. -/
def takeVal (l : Chars) : Chars := l.takeWhile (fun c => decide (c ≠ '"'))

/-- `os.path.basename` on forward-slash paths: the part after the last `/`. -/
def basename (l : Chars) : Chars := (l.reverse.takeWhile (fun c => decide (c ≠ '/'))).reverse

/-- One pass of `re.sub` driven by a pattern matcher `rule`, with explicit
fuel (one unit per scanned position; `scan` supplies `l.length`, which
suffices because every match consumes at least one character). -/
def scanF (rule : Chars → Option (Chars × Chars)) : Nat → Chars → Chars
  | 0, _ => []
  | _ + 1, [] => []
  | fuel + 1, c :: cs =>
    match rule (c :: cs) with
    | some (v, r) => v ++ scanF rule fuel r
    | none => c :: scanF rule fuel cs

/-- `re.sub(pattern-of-rule, repl-of-rule, l)`. -/
def scan (rule : Chars → Option (Chars × Chars)) (l : Chars) : Chars :=
  scanF rule l.length l

/-- A matcher is consuming when every match leaves a strictly shorter
remainder; all matchers in this file are, since the regexes cannot match the
empty string. -/
def Consuming (rule : Chars → Option (Chars × Chars)) : Prop :=
  ∀ l v r, rule l = some (v, r) → r.length < l.length

/-- `cleanFor rule t rest`: no match starts at any position inside `t` when
`t` is followed by `rest` (the scanner passes through `t` verbatim). -/
def cleanFor (rule : Chars → Option (Chars × Chars)) (t rest : Chars) : Bool :=
  t.tails.all (fun t2 => t2.isEmpty || (rule (t2 ++ rest)).isNone)

theorem scanF_nil (rule : Chars → Option (Chars × Chars)) (fuel : Nat) :
    scanF rule fuel [] = [] := by
  cases fuel <;> rfl

theorem scanF_fuel_eq (rule : Chars → Option (Chars × Chars)) (hc : Consuming rule) :
    ∀ f g l, l.length ≤ f → l.length ≤ g → scanF rule f l = scanF rule g l := by
  intro f
  induction f with
  | zero =>
    intro g l hf _
    have : l = [] := List.eq_nil_of_length_eq_zero (Nat.le_zero.mp hf)
    subst this
    simp [scanF_nil]
  | succ f ih =>
    intro g l hf hg
    cases l with
    | nil => simp [scanF_nil]
    | cons c cs =>
      cases g with
      | zero => exact absurd hg (by simp)
      | succ g =>
        simp only [scanF]
        cases hr : rule (c :: cs) with
        | some vr =>
          obtain ⟨v, r⟩ := vr
          have hlt := hc _ _ _ hr
          have hrf : r.length ≤ f := by
            have := Nat.lt_of_lt_of_le hlt hf
            omega
          have hrg : r.length ≤ g := by
            have := Nat.lt_of_lt_of_le hlt hg
            omega
          simp [ih g r hrf hrg]
        | none =>
          have hf' : cs.length ≤ f := by simpa using Nat.le_of_succ_le_succ hf
          have hg' : cs.length ≤ g := by simpa using Nat.le_of_succ_le_succ hg
          simp [ih g cs hf' hg']

theorem scan_cons_none {rule : Chars → Option (Chars × Chars)} {c : Char} {cs : Chars}
    (h : rule (c :: cs) = none) : scan rule (c :: cs) = c :: scan rule cs := by
  simp [scan, scanF, h]

theorem scan_match {rule : Chars → Option (Chars × Chars)} (hc : Consuming rule)
    {l v r : Chars} (h : rule l = some (v, r)) : scan rule l = v ++ scan rule r := by
  have hlt := hc _ _ _ h
  cases l with
  | nil => simp at hlt
  | cons c cs =>
    simp only [scan, List.length_cons, scanF, h]
    have : r.length ≤ cs.length := by
      simpa [Nat.lt_succ_iff] using hlt
    simp [scanF_fuel_eq rule hc cs.length r.length r this (Nat.le_refl _)]

theorem cleanFor_tail {rule : Chars → Option (Chars × Chars)} {c : Char} {t rest : Chars}
    (h : cleanFor rule (c :: t) rest = true) : cleanFor rule t rest = true := by
  simp only [cleanFor, List.tails, List.all_cons] at h ⊢
  exact (Bool.and_elim_right h)

theorem cleanFor_head {rule : Chars → Option (Chars × Chars)} {c : Char} {t rest : Chars}
    (h : cleanFor rule (c :: t) rest = true) : rule (c :: t ++ rest) = none := by
  simp only [cleanFor, List.tails, List.all_cons] at h
  have h1 := Bool.and_elim_left h
  simpa [Option.isNone_iff_eq_none] using h1

theorem scan_append_clean {rule : Chars → Option (Chars × Chars)} :
    ∀ t rest, cleanFor rule t rest = true → scan rule (t ++ rest) = t ++ scan rule rest := by
  intro t
  induction t with
  | nil => intro rest _; rfl
  | cons c t ih =>
    intro rest hcl
    have h0 : rule (c :: (t ++ rest)) = none := cleanFor_head hcl
    have := scan_cons_none h0
    rw [List.cons_append, this, ih rest (cleanFor_tail hcl), List.cons_append]

theorem scan_nil (rule : Chars → Option (Chars × Chars)) : scan rule [] = [] := rfl

theorem scan_all_clean {rule : Chars → Option (Chars × Chars)}
    (t : Chars) (h : cleanFor rule t [] = true) : scan rule t = t := by
  have := scan_append_clean t [] h
  simpa [scan_nil] using this

theorem pfx_iff_take (p : Chars) : ∀ l, pfx p l = true ↔ l.take p.length = p := by
  induction p with
  | nil => intro l; simp [pfx]
  | cons a as ih =>
    intro l
    cases l with
    | nil => simp [pfx]
    | cons b bs =>
      simp only [pfx, List.length_cons, List.take_succ_cons, Bool.and_eq_true,
        decide_eq_true_eq, List.cons.injEq, ih bs]
      constructor
      · rintro ⟨h1, h2⟩; exact ⟨h1.symm, h2⟩
      · rintro ⟨h1, h2⟩; exact ⟨h1.symm, h2⟩

theorem pfx_append_self (p r : Chars) : pfx p (p ++ r) = true :=
  (pfx_iff_take p (p ++ r)).mpr (List.take_left p r)

theorem pfx_len_le {p l : Chars} (h : pfx p l = true) : p.length ≤ l.length := by
  rw [pfx_iff_take] at h
  have := congrArg List.length h
  simp [List.length_take] at this
  omega

theorem pfx_mono_append {p v : Chars} (h : pfx p v = true) (w : Chars) :
    pfx p (v ++ w) = true := by
  have hlen := pfx_len_le h
  rw [pfx_iff_take] at h ⊢
  rw [List.take_append_of_le_length hlen, h]

theorem pfx_long {p v w : Chars} (h : pfx p (v ++ w) = true) (hlen : p.length ≤ v.length) :
    pfx p v = true := by
  rw [pfx_iff_take] at h ⊢
  rwa [List.take_append_of_le_length hlen] at h

theorem pfx_block_false {p v : Chars} (h : pfx p v = false) (hlen : p.length ≤ v.length)
    (w : Chars) : pfx p (v ++ w) = false := by
  cases h' : pfx p (v ++ w) with
  | false => rfl
  | true => exact absurd (pfx_long h' hlen) (by simp [h])

theorem pfx_split {p v w : Chars} (h : pfx p (v ++ w) = true) (hlt : v.length < p.length) :
    pfx (p.drop v.length) w = true := by
  rw [pfx_iff_take] at h
  rw [List.take_append_eq_append_take, List.take_of_length_le (by omega)] at h
  have hdrop : p.drop v.length = w.take (p.length - v.length) := by
    have h2 := congrArg (List.drop v.length) h
    rw [List.drop_left] at h2
    exact h2.symm
  rw [pfx_iff_take, List.length_drop]
  exact hdrop.symm

theorem pfx_head_mem {p : Chars} {c : Char} {w : Chars} (h : pfx p (c :: w) = true)
    (hp : p ≠ []) : c ∈ p := by
  cases p with
  | nil => exact absurd rfl hp
  | cons a as =>
    simp only [pfx, Bool.and_eq_true, decide_eq_true_eq] at h
    rw [← h.1]
    exact List.mem_cons_self a as

theorem pfx_block_short {p v : Chars} {c : Char} (hshort : v.length < p.length)
    (hc : c ∉ p) (w : Chars) : pfx p (v ++ c :: w) = false := by
  cases h' : pfx p (v ++ c :: w) with
  | false => rfl
  | true =>
    have h2 := pfx_split h' hshort
    have hne : p.drop v.length ≠ [] := by
      intro hnil
      have := congrArg List.length hnil
      simp [List.length_drop] at this
      omega
    exact absurd (List.mem_of_mem_drop (pfx_head_mem h2 hne)) hc

theorem takeWhile_append_stop {p : Char → Bool} {c : Char} (hc : p c = false) :
    ∀ x y, (x ++ c :: y).takeWhile p = x.takeWhile p := by
  intro x y
  induction x with
  | nil => simp [List.takeWhile_cons, hc]
  | cons a x ih =>
    cases ha : p a with
    | true => simp [List.takeWhile_cons, ha, ih]
    | false => simp [List.takeWhile_cons, ha]

theorem basename_slash (a b : Chars) : basename (a ++ '/' :: b) = basename b := by
  unfold basename
  rw [List.reverse_append, List.reverse_cons, List.append_assoc, List.singleton_append,
    takeWhile_append_stop (by decide)]

theorem basename_mem {l : Chars} {c : Char} (h : c ∈ basename l) : c ∈ l := by
  unfold basename at h
  rw [List.mem_reverse] at h
  have := (List.takeWhile_sublist _).mem h
  rwa [List.mem_reverse] at this

/-- The `([^"]+)"` / `([^"]*)"` step of a regex: split off the maximal
quote-free run, require a closing quote, return the run and the remainder
after the quote. -/
def chopVal : Chars → Option (Chars × Chars)
  | [] => none
  | c :: cs =>
    if c = '"' then some ([], cs)
    else (chopVal cs).map (fun p => (c :: p.1, p.2))

/-- `([^"]+)"`: as `chopVal` but the captured run must be non-empty. -/
def chopVal1 (l : Chars) : Option (Chars × Chars) :=
  match chopVal l with
  | some (v, rest) => if v.isEmpty then none else some (v, rest)
  | none => none

theorem chopVal_spec : ∀ {l v r : Chars}, chopVal l = some (v, r) →
    l = v ++ '"' :: r ∧ '"' ∉ v := by
  intro l
  induction l with
  | nil => intro v r h; simp [chopVal] at h
  | cons c cs ih =>
    intro v r h
    by_cases hc : c = '"'
    · subst hc
      simp only [chopVal, if_pos rfl] at h
      cases h
      simp
    · simp only [chopVal, if_neg hc] at h
      cases hcs : chopVal cs with
      | none => simp [hcs] at h
      | some p =>
        obtain ⟨v', r'⟩ := p
        simp only [hcs, Option.map_some] at h
        cases h
        obtain ⟨hl, hq⟩ := ih hcs
        rw [hl]
        refine ⟨rfl, ?_⟩
        intro hmem
        rcases List.mem_cons.mp hmem with h | h
        · exact hc h.symm
        · exact hq h

theorem chopVal_eval {v : Chars} (hq : '"' ∉ v) (r : Chars) :
    chopVal (v ++ '"' :: r) = some (v, r) := by
  induction v with
  | nil => rfl
  | cons c cs ih =>
    have hc : c ≠ '"' := fun h => hq (h ▸ List.mem_cons_self c cs)
    have hcs : '"' ∉ cs := fun h => hq (List.mem_cons_of_mem c h)
    rw [List.cons_append]
    simp only [chopVal, if_neg hc, ih hcs]
    rfl

theorem chopVal_len {l v r : Chars} (h : chopVal l = some (v, r)) : r.length < l.length := by
  have := (chopVal_spec h).1
  subst this
  simp
  omega

theorem chopVal1_spec {l v r : Chars} (h : chopVal1 l = some (v, r)) :
    l = v ++ '"' :: r ∧ '"' ∉ v ∧ v ≠ [] := by
  unfold chopVal1 at h
  cases hcv : chopVal l with
  | none => simp [hcv] at h
  | some p =>
    obtain ⟨v', r'⟩ := p
    rw [hcv] at h
    by_cases he : v'.isEmpty
    · simp [he] at h
    · simp only [he, Bool.false_eq_true, if_false, Option.some.injEq, Prod.mk.injEq] at h
      obtain ⟨h1, h2⟩ := h
      subst h1; subst h2
      obtain ⟨hl, hq⟩ := chopVal_spec hcv
      exact ⟨hl, hq, by simpa [List.isEmpty_iff] using he⟩

theorem chopVal1_len {l v r : Chars} (h : chopVal1 l = some (v, r)) : r.length < l.length := by
  have := (chopVal1_spec h).1
  subst this
  simp
  omega

theorem chopVal1_eval {v : Chars} (hv : v ≠ []) (hq : '"' ∉ v) (r : Chars) :
    chopVal1 (v ++ '"' :: r) = some (v, r) := by
  unfold chopVal1
  rw [chopVal_eval hq]
  simp [List.isEmpty_iff, hv]

/-! ### Asset re-linker (`package_conversion`, src/app.py lines 192-196)

`re.sub(r'src="(?!images/)(?:media/)?([^"]+)"',
        lambda m: f'src="images/{os.path.basename(m.group(1))}"', html)` -/

/-- First-alternative choice: the result of an optional group attempt, falling
back to the backtracked attempt when the first fails. -/
def orTry {a : Type} : Option a → Option a → Option a
  | some x, _ => some x
  | none, y => y

theorem orTry_some {a : Type} (x : a) (y : Option a) : orTry (some x) y = some x := rfl

theorem orTry_none {a : Type} (y : Option a) : orTry none y = y := rfl

theorem drop_len_append (p x : Chars) {n : Nat} (h : p.length = n) : (p ++ x).drop n = x := by
  subst h
  exact List.drop_left p x

/-- Matcher for the relink regex at one position: literal `src="`, negative
lookahead `(?!images/)`, optional `media/` (with backtracking when the
remaining `([^"]+)"` cannot match), then a non-empty quote-free capture and
its closing quote.  The replacement re-points the capture's basename into
`images/`. -/
def relinkRule (l : Chars) : Option (Chars × Chars) :=
  if pfx "src=\"".data l then
    let r0 := l.drop 5
    if pfx "images/".data r0 then none
    else
      let cap :=
        if pfx "media/".data r0 then orTry (chopVal1 (r0.drop 6)) (chopVal1 r0)
        else chopVal1 r0
      cap.map (fun p => ("src=\"images/".data ++ basename p.1 ++ ['"'], p.2))
  else none

/-- The relink pass over the whole HTML text. -/
def relink (l : Chars) : Chars := scan relinkRule l

theorem relinkRule_consuming : Consuming relinkRule := by
  intro l v r h
  unfold relinkRule at h
  by_cases h5 : pfx "src=\"".data l
  · rw [if_pos h5] at h
    by_cases hi : pfx "images/".data (l.drop 5)
    · simp [hi] at h
    · rw [if_neg hi] at h
      have hcap : ∀ {p : Chars × Chars},
          (if pfx "media/".data (l.drop 5) then
            orTry (chopVal1 ((l.drop 5).drop 6)) (chopVal1 (l.drop 5))
          else chopVal1 (l.drop 5)) = some p → p.2.length < l.length := by
        intro p hp
        by_cases hm : pfx "media/".data (l.drop 5)
        · rw [if_pos hm] at hp
          cases hc1 : chopVal1 ((l.drop 5).drop 6) with
          | some q =>
            rw [hc1, orTry_some] at hp
            cases hp
            have := chopVal1_len hc1
            simp [List.length_drop] at this ⊢
            omega
          | none =>
            rw [hc1, orTry_none] at hp
            have := chopVal1_len hp
            simp [List.length_drop] at this ⊢
            omega
        · rw [if_neg hm] at hp
          have := chopVal1_len hp
          simp [List.length_drop] at this ⊢
          omega
      cases hcap' : (if pfx "media/".data (l.drop 5) then
            orTry (chopVal1 ((l.drop 5).drop 6)) (chopVal1 (l.drop 5))
          else chopVal1 (l.drop 5)) with
      | some p =>
        rw [hcap'] at h
        simp only [Option.map_some, Option.some.injEq] at h
        cases h
        exact hcap hcap'
      | none =>
        rw [hcap'] at h
        simp at h
  · simp [h5] at h

/-- The rewritten form of one `src` value: values already under `images/` are
exempted by the lookahead, every other value is re-pointed to
`images/<basename>`. -/
def relinkVal (v : Chars) : Chars :=
  if pfx "images/".data v then v else "images/".data ++ basename v

theorem relinkRule_match {v : Chars} (hv : v ≠ []) (hq : '"' ∉ v)
    (hni : pfx "images/".data v = false) (R : Chars) :
    relinkRule ("src=\"".data ++ v ++ '"' :: R) =
      some ("src=\"images/".data ++ basename v ++ ['"'], R) := by
  have hassoc : "src=\"".data ++ v ++ '"' :: R = "src=\"".data ++ (v ++ '"' :: R) := by
    simp
  have hdrop : ("src=\"".data ++ (v ++ '"' :: R)).drop 5 = v ++ '"' :: R :=
    drop_len_append _ _ rfl
  have himg : pfx "images/".data (v ++ '"' :: R) = false := by
    rcases le_or_lt ("images/".data).length v.length with hle | hlt
    · exact pfx_block_false hni hle _
    · exact pfx_block_short hlt (by decide) _
  rw [hassoc]
  unfold relinkRule
  rw [if_pos (pfx_append_self _ _), hdrop, if_neg (by simp [himg])]
  by_cases hm : pfx "media/".data (v ++ '"' :: R)
  · rw [if_pos hm]
    have hvlen : ("media/".data).length ≤ v.length := by
      rcases le_or_lt ("media/".data).length v.length with hle | hlt
      · exact hle
      · have hblock : pfx "media/".data (v ++ '"' :: R) = false :=
          pfx_block_short hlt (show ('"' : Char) ∉ "media/".data from by decide) R
        exact absurd hm (by simp [hblock])
    have hmv : pfx "media/".data v = true := pfx_long hm hvlen
    have hvsplit : v = "media/".data ++ v.drop 6 := by
      rw [pfx_iff_take] at hmv
      conv_lhs => rw [← List.take_append_drop 6 v]
      rw [show ("media/".data).length = 6 from rfl] at hmv
      rw [hmv]
    have hdrop6 : (v ++ '"' :: R).drop 6 = v.drop 6 ++ '"' :: R := by
      conv_lhs => rw [hvsplit, List.append_assoc]
      exact drop_len_append _ _ rfl
    have hqd : '"' ∉ v.drop 6 := fun hmem => hq (List.mem_of_mem_drop hmem)
    by_cases hvd : v.drop 6 = []
    · have hnone : chopVal1 ((v ++ '"' :: R).drop 6) = none := by
        rw [hdrop6, hvd, List.nil_append]
        rfl
      rw [hnone, orTry_none, chopVal1_eval hv hq R]
      rfl
    · rw [hdrop6, chopVal1_eval hvd hqd R, orTry_some]
      have hbase : basename (v.drop 6) = basename v := by
        conv_rhs => rw [hvsplit]
        exact (basename_slash "media".data (v.drop 6)).symm
      simp [hbase]
  · rw [if_neg hm, chopVal1_eval hv hq R]
    rfl

theorem relinkRule_skip {v : Chars} (hni : pfx "images/".data v = true) (R : Chars) :
    relinkRule ("src=\"".data ++ v ++ '"' :: R) = none := by
  have hassoc : "src=\"".data ++ v ++ '"' :: R = "src=\"".data ++ (v ++ '"' :: R) := by
    simp
  rw [hassoc]
  unfold relinkRule
  rw [if_pos (pfx_append_self _ _)]
  have hdrop : ("src=\"".data ++ (v ++ '"' :: R)).drop 5 = v ++ '"' :: R :=
    drop_len_append _ _ rfl
  rw [hdrop, if_pos (pfx_mono_append hni _)]

/-! ### Structured documents for the relink step (claim C1)

A document is text blocks interleaved with `src="…"` attributes:
`renderDoc t [(v1,t1),…,(vn,tn)] = t ++ src="v1" ++ t1 ++ … ++ src="vn" ++ tn`. -/

def renderDoc : Chars → List (Chars × Chars) → Chars
  | t, [] => t
  | t, (v, t') :: segs => t ++ ("src=\"".data ++ v ++ '"' :: renderDoc t' segs)

/-- Well-formedness of a structured document for the relink scan: no stray
match starts inside a text block, values are non-empty and quote-free, and no
match starts inside the body of a value that the lookahead exempts. -/
def goodDocB : Chars → List (Chars × Chars) → Bool
  | t, [] => cleanFor relinkRule t []
  | t, (v, t') :: segs =>
    cleanFor relinkRule t ("src=\"".data ++ v ++ '"' :: renderDoc t' segs) &&
    decide (v ≠ []) && decide ('"' ∉ v) &&
    (!(pfx "images/".data v) || cleanFor relinkRule ("rc=\"".data ++ v ++ ['"']) (renderDoc t' segs)) &&
    goodDocB t' segs

/-- Applying `relinkVal` to every value of a structured document. -/
def rewriteSegs (segs : List (Chars × Chars)) : List (Chars × Chars) :=
  segs.map (fun p => (relinkVal p.1, p.2))

theorem relinkVal_eq_self {v : Chars} (h : pfx "images/".data v = true) :
    relinkVal v = v := by
  unfold relinkVal
  rw [if_pos h]

theorem relinkVal_eq_base {v : Chars} (h : ¬ pfx "images/".data v = true) :
    relinkVal v = "images/".data ++ basename v := by
  unfold relinkVal
  rw [if_neg h]

theorem relinkVal_idem (v : Chars) : relinkVal (relinkVal v) = relinkVal v := by
  by_cases h : pfx "images/".data v = true
  · rw [relinkVal_eq_self h, relinkVal_eq_self h]
  · rw [relinkVal_eq_base h, relinkVal_eq_self (pfx_append_self "images/".data (basename v))]

theorem rewriteSegs_idem (segs : List (Chars × Chars)) :
    rewriteSegs (rewriteSegs segs) = rewriteSegs segs := by
  unfold rewriteSegs
  rw [List.map_map]
  apply List.map_congr_left
  intro p _
  simp [relinkVal_idem]

theorem relink_renderDoc : ∀ (segs : List (Chars × Chars)) (t : Chars),
    goodDocB t segs = true →
    relink (renderDoc t segs) = renderDoc t (rewriteSegs segs) := by
  intro segs
  induction segs with
  | nil =>
    intro t h
    exact scan_all_clean t h
  | cons p segs ih =>
    obtain ⟨v, t'⟩ := p
    intro t h
    simp only [goodDocB, Bool.and_eq_true, Bool.or_eq_true, Bool.not_eq_true'] at h
    obtain ⟨⟨⟨⟨hct, hv⟩, hq⟩, hskip⟩, hrec⟩ := h
    rw [decide_eq_true_eq] at hv hq
    have ihrec := ih t' hrec
    unfold relink at ihrec
    simp only [rewriteSegs] at ihrec
    simp only [renderDoc, rewriteSegs, List.map_cons]
    rw [show relink (t ++ ("src=\"".data ++ v ++ '"' :: renderDoc t' segs)) =
        t ++ relink ("src=\"".data ++ v ++ '"' :: renderDoc t' segs) from
      scan_append_clean t _ hct]
    by_cases himg : pfx "images/".data v = true
    · have hnone : relinkRule ("src=\"".data ++ v ++ '"' :: renderDoc t' segs) = none :=
        relinkRule_skip himg _
      have hcons : "src=\"".data ++ v ++ '"' :: renderDoc t' segs =
          's' :: (("rc=\"".data ++ v ++ ['"']) ++ renderDoc t' segs) := by simp
      have hclean2 : cleanFor relinkRule ("rc=\"".data ++ v ++ ['"']) (renderDoc t' segs) = true := by
        rcases hskip with hfalse | hcf
        · exact absurd himg (by simp [hfalse])
        · exact hcf
      unfold relink
      rw [hcons, scan_cons_none (by rw [← hcons]; exact hnone),
        scan_append_clean _ _ hclean2, ihrec, relinkVal_eq_self himg]
      simp
    · have himg' : pfx "images/".data v = false := by
        cases hpf : pfx "images/".data v
        · rfl
        · exact absurd hpf himg
      have hmatch := relinkRule_match hv hq himg' (renderDoc t' segs)
      unfold relink
      rw [scan_match relinkRule_consuming hmatch, ihrec, relinkVal_eq_base himg]
      have hsplit : "src=\"images/".data = "src=\"".data ++ "images/".data := by decide
      simp [hsplit]

/-- Claim C1 (counterexample).  The claim asserts that the relink step of
`package_conversion` is idempotent on its own output for every input.  It is
not: on `src="asrc=" x "y` the first pass produces `src="images/asrc=" x "y`,
and in the second pass the scanner, after the lookahead rejects the rewritten
attribute, finds a fresh `src="` occurrence formed by the tail `src=` of the
rewritten value together with its closing quote, and rewrites again. -/
theorem claim_C1_counterexample :
    relink (relink "src=\"asrc=\" x \"y".data) ≠ relink "src=\"asrc=\" x \"y".data := by
  decide

/-- Claim C1 (amended).  For documents made of text blocks interleaved with
`src="…"` attributes carrying non-empty quote-free values, where no stray
relink match starts inside a text block or inside a lookahead-exempted value
(`goodDocB`, for both the original and the rewritten document), the relink
step of `package_conversion` rewrites every value not already prefixed
`images/` to `images/<basename>`, leaves `images/`-prefixed values unchanged
(`relinkVal`), and is idempotent on its own output. -/
theorem claim_C1 (t : Chars) (segs : List (Chars × Chars))
    (h1 : goodDocB t segs = true) (h2 : goodDocB t (rewriteSegs segs) = true) :
    relink (renderDoc t segs) = renderDoc t (rewriteSegs segs) ∧
    relink (relink (renderDoc t segs)) = relink (renderDoc t segs) := by
  have e1 := relink_renderDoc segs t h1
  have e2 := relink_renderDoc (rewriteSegs segs) t h2
  refine ⟨e1, ?_⟩
  rw [e1, e2, rewriteSegs_idem, ← e1, e1]

/-- Witness for claim C1 at a concrete document with one `media/` image
reference and one already-relative reference. -/
theorem claim_C1_witness :
    goodDocB "<p>".data [("media/img1.png".data, " ".data), ("images/a.png".data, "</p>".data)] = true ∧
    goodDocB "<p>".data (rewriteSegs [("media/img1.png".data, " ".data), ("images/a.png".data, "</p>".data)]) = true ∧
    relink (renderDoc "<p>".data [("media/img1.png".data, " ".data), ("images/a.png".data, "</p>".data)]) =
      renderDoc "<p>".data (rewriteSegs [("media/img1.png".data, " ".data), ("images/a.png".data, "</p>".data)]) :=
  ⟨by decide, by decide,
    (claim_C1 "<p>".data [("media/img1.png".data, " ".data), ("images/a.png".data, "</p>".data)]
      (by decide) (by decide)).1⟩

/-! ### Fixed-dimension stripping (`optimize_html`, src/app.py line 114)

`re.sub(r'\\s*(width|height)="[^"]*"', '', html_content)` -/

/-- Python regex `\\s` over ASCII: space, tab, newline, carriage return,
vertical tab, form feed. -/
def isSpc (c : Char) : Bool :=
  decide (c = ' ' ∨ c = '\t' ∨ c = '\n' ∨ c = '\r' ∨ c = '\x0b' ∨ c = '\x0c')

/-- One alternative of `(width|height)="[^"]*"` at the current position. -/
def whAttempt (nm : Chars) (r : Chars) : Option (Chars × Chars) :=
  if pfx (nm ++ "=\"".data) r then
    match chopVal (r.drop (nm.length + 2)) with
    | some p => some ([], p.2)
    | none => none
  else none

/-- Matcher for `\\s*(width|height)="[^"]*"`: greedy whitespace, then the
first alternative that completes; the whole match (whitespace included) is
replaced by nothing. -/
def whRule (l : Chars) : Option (Chars × Chars) :=
  orTry (whAttempt "width".data (l.drop (l.takeWhile isSpc).length))
        (whAttempt "height".data (l.drop (l.takeWhile isSpc).length))

/-- The dimension-stripping pass over the whole HTML text. -/
def stripWH (l : Chars) : Chars := scan whRule l

theorem whAttempt_len {nm r v rest : Chars} (h : whAttempt nm r = some (v, rest)) :
    rest.length < r.length := by
  unfold whAttempt at h
  by_cases hp : pfx (nm ++ "=\"".data) r
  · rw [if_pos hp] at h
    cases hcv : chopVal (r.drop (nm.length + 2)) with
    | some p =>
      rw [hcv] at h
      cases h
      have h1 := chopVal_len hcv
      have h2 : (r.drop (nm.length + 2)).length ≤ r.length := by
        simp [List.length_drop]
      omega
    | none => simp [hcv] at h
  · simp [hp] at h

theorem whRule_consuming : Consuming whRule := by
  intro l v r h
  unfold whRule at h
  have hdl : (l.drop (l.takeWhile isSpc).length).length ≤ l.length := by
    simp [List.length_drop]
  cases hw : whAttempt "width".data (l.drop (l.takeWhile isSpc).length) with
  | some p =>
    obtain ⟨v1, r1⟩ := p
    rw [hw, orTry_some] at h
    cases h
    have := whAttempt_len hw
    omega
  | none =>
    rw [hw, orTry_none] at h
    have := whAttempt_len h
    omega

/-- One rendered dimension attribute, leading separator space included (the
regex consumes the `\\s*` run in front of the attribute as part of the
match). -/
def whAttrCore (isW : Bool) (v : Chars) : Chars :=
  (if isW then "width=\"".data else "height=\"".data) ++ v ++ ['"']

/-- Text blocks interleaved with ` width="…"` / ` height="…"` attributes. -/
def renderWH : Chars → List (Bool × Chars × Chars) → Chars
  | t, [] => t
  | t, (isW, v, t') :: segs => t ++ (' ' :: (whAttrCore isW v ++ renderWH t' segs))

/-- The same document with every dimension attribute (and its separator
space) removed. -/
def flattenWH : Chars → List (Bool × Chars × Chars) → Chars
  | t, [] => t
  | t, (_, _, t') :: segs => t ++ flattenWH t' segs

/-- Well-formedness for the stripping scan: no stray match starts inside a
text block and values are quote-free. -/
def goodWHB : Chars → List (Bool × Chars × Chars) → Bool
  | t, [] => cleanFor whRule t []
  | t, (isW, v, t') :: segs =>
    cleanFor whRule t (' ' :: (whAttrCore isW v ++ renderWH t' segs)) &&
    decide ('"' ∉ v) && goodWHB t' segs

theorem whRule_match_w {v : Chars} (hq : '"' ∉ v) (R : Chars) :
    whRule (' ' :: ("width=\"".data ++ (v ++ '"' :: R))) = some ([], R) := by
  unfold whRule
  have h1 : ((' ' :: ("width=\"".data ++ (v ++ '"' :: R))).drop
      ((' ' :: ("width=\"".data ++ (v ++ '"' :: R))).takeWhile isSpc).length) =
      "width=\"".data ++ (v ++ '"' :: R) := rfl
  rw [h1]
  unfold whAttempt
  have h2 : ("width".data ++ "=\"".data : Chars) = "width=\"".data := rfl
  rw [h2, if_pos (pfx_append_self _ _)]
  have h3 : ("width=\"".data ++ (v ++ '"' :: R)).drop ("width".data.length + 2) =
      v ++ '"' :: R := drop_len_append _ _ rfl
  rw [h3, chopVal_eval hq R, orTry_some]

theorem whRule_match_h {v : Chars} (hq : '"' ∉ v) (R : Chars) :
    whRule (' ' :: ("height=\"".data ++ (v ++ '"' :: R))) = some ([], R) := by
  unfold whRule
  have h1 : ((' ' :: ("height=\"".data ++ (v ++ '"' :: R))).drop
      ((' ' :: ("height=\"".data ++ (v ++ '"' :: R))).takeWhile isSpc).length) =
      "height=\"".data ++ (v ++ '"' :: R) := rfl
  rw [h1]
  have hw : whAttempt "width".data ("height=\"".data ++ (v ++ '"' :: R)) = none := by
    unfold whAttempt
    have hpw : pfx ("width".data ++ "=\"".data) ("height=\"".data ++ (v ++ '"' :: R)) = false := rfl
    have hneg : ¬ pfx ("width".data ++ "=\"".data) ("height=\"".data ++ (v ++ '"' :: R)) = true := by
      rw [hpw]
      exact Bool.false_ne_true
    rw [if_neg hneg]
  rw [hw, orTry_none]
  unfold whAttempt
  have h2 : ("height".data ++ "=\"".data : Chars) = "height=\"".data := rfl
  rw [h2, if_pos (pfx_append_self _ _)]
  have h3 : ("height=\"".data ++ (v ++ '"' :: R)).drop ("height".data.length + 2) =
      v ++ '"' :: R := drop_len_append _ _ rfl
  rw [h3, chopVal_eval hq R]

theorem stripWH_renderWH : ∀ (segs : List (Bool × Chars × Chars)) (t : Chars),
    goodWHB t segs = true → stripWH (renderWH t segs) = flattenWH t segs := by
  intro segs
  induction segs with
  | nil =>
    intro t h
    exact scan_all_clean t h
  | cons p segs ih =>
    obtain ⟨isW, v, t'⟩ := p
    intro t h
    simp only [goodWHB, Bool.and_eq_true] at h
    obtain ⟨⟨hct, hq⟩, hrec⟩ := h
    rw [decide_eq_true_eq] at hq
    have ihrec := ih t' hrec
    unfold stripWH at ihrec
    simp only [renderWH, flattenWH]
    unfold stripWH
    rw [scan_append_clean t _ hct]
    cases isW with
    | true =>
      have hsh : whAttrCore true v ++ renderWH t' segs =
          "width=\"".data ++ (v ++ '"' :: renderWH t' segs) := by
        unfold whAttrCore
        simp
      rw [hsh, scan_match whRule_consuming (whRule_match_w hq _), List.nil_append, ihrec]
    | false =>
      have hsh : whAttrCore false v ++ renderWH t' segs =
          "height=\"".data ++ (v ++ '"' :: renderWH t' segs) := by
        unfold whAttrCore
        simp
      rw [hsh, scan_match whRule_consuming (whRule_match_h hq _), List.nil_append, ihrec]

/-- Claim C8 (counterexample).  The claim asserts that after the stripping
pass no literal `width="…"` remains.  Removal can juxtapose surrounding text
into a new such occurrence: in `<img widwidth="a"th="b" src="x">` the pass
removes the inner `width="a"`, and the remaining `wid` + `th="b"` recombine
into `width="b"` in the output. -/
theorem claim_C8_counterexample :
    stripWH "<img widwidth=\"a\"th=\"b\" src=\"x\">".data = "<img width=\"b\" src=\"x\">".data ∧
    hasInf "width=\"".data (stripWH "<img widwidth=\"a\"th=\"b\" src=\"x\">".data) = true := ⟨by decide, by decide⟩

/-- Claim C8 (amended).  For documents made of text blocks interleaved with
` width="…"` / ` height="…"` attributes (quote-free values) in which no stray
strip match starts inside a text block, the stripping pass of `optimize_html`
removes every dimension attribute, leaving exactly the concatenated text
blocks; in particular no `width="` or `height="` remains whenever the
residual text does not itself contain such an occurrence. -/
theorem claim_C8 (t : Chars) (segs : List (Bool × Chars × Chars))
    (h : goodWHB t segs = true) :
    stripWH (renderWH t segs) = flattenWH t segs ∧
    (hasInf "width=\"".data (flattenWH t segs) = false →
      hasInf "width=\"".data (stripWH (renderWH t segs)) = false) ∧
    (hasInf "height=\"".data (flattenWH t segs) = false →
      hasInf "height=\"".data (stripWH (renderWH t segs)) = false) := by
  have e := stripWH_renderWH segs t h
  exact ⟨e, fun hw => by rw [e]; exact hw, fun hh => by rw [e]; exact hh⟩

/-- Witness for claim C8: `<img width="5" height="3">` loses both dimension
attributes. -/
theorem claim_C8_witness :
    goodWHB "<img".data [(true, "5".data, "".data), (false, "3".data, ">".data)] = true ∧
    stripWH (renderWH "<img".data [(true, "5".data, "".data), (false, "3".data, ">".data)]) =
      flattenWH "<img".data [(true, "5".data, "".data), (false, "3".data, ">".data)] :=
  ⟨by decide, (claim_C8 "<img".data [(true, "5".data, "".data), (false, "3".data, ">".data)] (by decide)).1⟩

/-! ### Head replacement and body tagging (`optimize_html`, src/app.py lines 77-113)

`html = re.sub(r'<head>.*?</head>', responsive_head, html, flags=re.DOTALL)`
`if not re.search(r'<body[^>]*class="[^"]*container[^"]*"', html):`
`    html = re.sub(r'<body', '<body class="container"', html)` -/

/-- The fixed responsive head block of `optimize_html` (src/app.py lines
77-110), verbatim. -/
def responsiveHead : String := "\n<head>\n    <meta charset=\"UTF-8\">\n    <meta name=\"viewport\" content=\"width=device-width, initial-scale=1, shrink-to-fit=no\">\n    <link rel=\"stylesheet\" href=\"https://cdn.jsdelivr.net/npm/bootstrap@5.3.0/dist/css/bootstrap.min.css\">\n    <style>\n      /* Custom CSS styles */\n      :root \x7b\n        --font-base: clamp(0.75rem, 1vw + 0.75rem, 1.25rem);\n        --font-headline: clamp(1.75rem, 4vw, 2.5rem);\n        --spacing-base: clamp(0.5rem, 1vw, 2rem);\n        --line-height-base: 1.5;\n        --vertical-spacing: clamp(1.3, 1vw + 1.3, 1.7);\n        --font-primary: -apple-system, BlinkMacSystemFont, \"Segoe UI\", Roboto, \"Helvetica Neue\", Arial, sans-serif;\n        --font-secondary: \"Segoe UI Black\", -apple-system, BlinkMacSystemFont, \"Segoe UI\", Roboto, \"Helvetica Neue\", Arial, sans-serif;\n      \x7d\n      html \x7b font-size: 100%; line-height: var(--line-height-base); font-family: var(--font-primary); \x7d\n      header \x7b background: rgba(255, 255, 255, 0.85); backdrop-filter: blur(10px); border-bottom: 1px solid rgba(0,0,0,0.1); padding: calc(var(--spacing-base) * 1.5); text-align: center; box-shadow: 0 1px 2px rgba(0,0,0,0.05); \x7d\n      header h1 \x7b margin: 0; font-family: var(--font-secondary); font-size: var(--font-headline); font-weight: 900; letter-spacing: -0.5pt; line-height: 1.3; \x7d\n      body \x7b padding: var(--spacing-base); \x7d\n      img \x7b max-width: 100% !important; height: auto !important; display: block; \x7d\n      .img-line \x7b width: 100% !important; height: auto !important; \x7d\n      .table-responsive \x7b overflow-x: auto; \x7d\n      footer \x7b margin-top: var(--spacing-base); padding: var(--spacing-base); background-color: #f8f9fa; text-align: center; font-size: clamp(0.75rem, 1vw, 1rem); \x7d\n    </style>\n    <script async src=\"https://www.googletagmanager.com/gtag/js?id=G-P8LYBP9EDY\"></script>\n    <script defer>\n        window.dataLayer = window.dataLayer || [];\n        function gtag()\x7bdataLayer.push(arguments);\x7d\n        gtag(\x27js\x27, new Date());\n        gtag(\x27config\x27, \x27G-P8LYBP9EDY\x27);\n    </script>\n</head>\n        "

/-- Leftmost occurrence split: `splitFirst pat l = some (a, b)` when
`l = a ++ pat ++ b` with the first occurrence of `pat` at the split. -/
def splitFirst (pat : Chars) : Chars → Option (Chars × Chars)
  | [] => none
  | c :: cs =>
    if pfx pat (c :: cs) then some ([], (c :: cs).drop pat.length)
    else (splitFirst pat cs).map (fun p => (c :: p.1, p.2))

/-- `noHitB pat a b`: no occurrence of `pat` starts inside `a` when `a` is
followed by `b`. -/
def noHitB (pat a b : Chars) : Bool :=
  a.tails.all (fun t2 => t2.isEmpty || !(pfx pat (t2 ++ b)))

theorem splitFirst_spec {pat : Chars} : ∀ {l a b : Chars},
    splitFirst pat l = some (a, b) → l = a ++ pat ++ b := by
  intro l
  induction l with
  | nil =>
    intro a b h
    unfold splitFirst at h
    exact absurd h (by simp)
  | cons c cs ih =>
    intro a b h
    unfold splitFirst at h
    by_cases hp : pfx pat (c :: cs) = true
    · rw [if_pos hp] at h
      cases h
      rw [pfx_iff_take] at hp
      conv_lhs => rw [← List.take_append_drop pat.length (c :: cs)]
      rw [hp]
      simp
    · rw [if_neg hp] at h
      cases hsf : splitFirst pat cs with
      | none => simp [hsf] at h
      | some p =>
        obtain ⟨a', b'⟩ := p
        rw [hsf] at h
        simp only [Option.map_some'] at h
        cases h
        rw [ih hsf]
        simp

theorem splitFirst_eval {pat : Chars} (hne : pat ≠ []) : ∀ {a : Chars} (b : Chars),
    noHitB pat a (pat ++ b) = true → splitFirst pat (a ++ (pat ++ b)) = some (a, b) := by
  intro a
  induction a with
  | nil =>
    intro b _
    rw [List.nil_append]
    obtain ⟨x, xs, hpat⟩ := List.exists_cons_of_ne_nil hne
    have hcons : pat ++ b = x :: (xs ++ b) := by rw [hpat]; rfl
    rw [hcons]
    unfold splitFirst
    rw [if_pos (by rw [← hcons]; exact pfx_append_self _ _)]
    have hdrop : (x :: (xs ++ b)).drop pat.length = b := by
      rw [← hcons]
      exact drop_len_append _ _ rfl
    rw [hdrop]
  | cons c a ih =>
    intro b h
    simp only [noHitB, List.tails, List.all_cons, Bool.and_eq_true] at h
    obtain ⟨hhead, htail⟩ := h
    have hnp : pfx pat ((c :: a) ++ (pat ++ b)) = false := by
      simp only [List.isEmpty_cons, Bool.false_or] at hhead
      cases hx : pfx pat ((c :: a) ++ (pat ++ b)) with
      | false => rfl
      | true => rw [hx] at hhead; simp at hhead
    rw [List.cons_append]
    unfold splitFirst
    rw [if_neg (by rw [List.cons_append] at hnp; simp [hnp]), ih b htail]
    rfl

/-- Matcher for `<head>.*?</head>` (DOTALL, non-greedy): the literal `<head>`
then everything up to and including the first `</head>`; the whole span is
replaced by the fixed responsive head. -/
def headRule (l : Chars) : Option (Chars × Chars) :=
  if pfx "<head>".data l then
    match splitFirst "</head>".data (l.drop 6) with
    | some p => some (responsiveHead.data, p.2)
    | none => none
  else none

/-- The head-replacement pass. -/
def headStep (l : Chars) : Chars := scan headRule l

theorem headRule_consuming : Consuming headRule := by
  intro l v r h
  unfold headRule at h
  by_cases hp : pfx "<head>".data l
  · rw [if_pos hp] at h
    cases hsf : splitFirst "</head>".data (l.drop 6) with
    | none => simp [hsf] at h
    | some p =>
      obtain ⟨a, b⟩ := p
      rw [hsf] at h
      cases h
      have hspec := splitFirst_spec hsf
      have h1 := congrArg List.length hspec
      rw [List.length_drop] at h1
      simp only [List.length_append] at h1
      have hlen6 : ("<head>".data : Chars).length ≤ l.length := pfx_len_le hp
      have h6 : (6 : Nat) ≤ l.length := by simpa using hlen6
      have h7 : ("</head>".data : Chars).length = 7 := rfl
      rw [h7] at h1
      show b.length < l.length
      omega
  · simp [hp] at h

theorem headRule_match {m : Chars} (R : Chars)
    (h : noHitB "</head>".data m ("</head>".data ++ R) = true) :
    headRule ("<head>".data ++ (m ++ ("</head>".data ++ R))) =
      some (responsiveHead.data, R) := by
  unfold headRule
  rw [if_pos (pfx_append_self _ _)]
  have hd : ("<head>".data ++ (m ++ ("</head>".data ++ R))).drop 6 =
      m ++ ("</head>".data ++ R) := drop_len_append _ _ rfl
  rw [hd, splitFirst_eval (by decide) R h]

/-- One position of the `re.search(r'<body[^>]*class="[^"]*container[^"]*"')`
guard, after the literal `<body`: scan over non-`>` characters for a
`class="…container…"` attribute. -/
def bodyAfter : Chars → Bool
  | [] => false
  | c :: cs =>
    (pfx "class=\"".data (c :: cs) &&
      (hasInf "container".data (takeVal ((c :: cs).drop 7)) &&
        decide ((((c :: cs).drop 7).drop (takeVal ((c :: cs).drop 7)).length) ≠ []))) ||
    (decide (c ≠ '>') && bodyAfter cs)

/-- The container-class guard of `optimize_html`: true when some `<body` tag
already carries a class containing `container`. -/
def bodyGuard : Chars → Bool
  | [] => false
  | c :: cs => (pfx "<body".data (c :: cs) && bodyAfter ((c :: cs).drop 5)) || bodyGuard cs

/-- Matcher for `re.sub(r'<body', '<body class="container"', html)`. -/
def bodyRule (l : Chars) : Option (Chars × Chars) :=
  if pfx "<body".data l then some ("<body class=\"container\"".data, l.drop 5) else none

/-- The body-tagging pass: tag every `<body` unless the guard finds an
existing container class. -/
def bodyStep (l : Chars) : Chars := if bodyGuard l then l else scan bodyRule l

/-- The head-replacement and body-tagging steps of `optimize_html`, in source
order (src/app.py lines 111-113). -/
def headBody (l : Chars) : Chars := bodyStep (headStep l)

theorem bodyRule_consuming : Consuming bodyRule := by
  intro l v r h
  unfold bodyRule at h
  by_cases hp : pfx "<body".data l
  · rw [if_pos hp] at h
    cases h
    have h5 : ("<body".data : Chars).length ≤ l.length := pfx_len_le hp
    simp at h5
    simp [List.length_drop]
    omega
  · simp [hp] at h

theorem bodyRule_match (R : Chars) :
    bodyRule ("<body".data ++ R) = some ("<body class=\"container\"".data, R) := by
  unfold bodyRule
  have hd : ("<body".data ++ R).drop 5 = R := drop_len_append _ _ rfl
  rw [if_pos (pfx_append_self _ _), hd]

theorem hasInf_nil_pat (l : Chars) : hasInf [] l = true := by
  cases l <;> simp [hasInf, pfx]

theorem hasInf_append_left {pat : Chars} : ∀ {a : Chars} (b : Chars),
    hasInf pat a = true → hasInf pat (a ++ b) = true := by
  intro a
  induction a with
  | nil =>
    intro b h
    simp only [hasInf] at h
    have : pat = [] := by
      cases pat with
      | nil => rfl
      | cons x xs => simp [pfx] at h
    subst this
    exact hasInf_nil_pat b
  | cons c cs ih =>
    intro b h
    simp only [List.cons_append, hasInf, Bool.or_eq_true] at h ⊢
    rcases h with h | h
    · left
      have h2 := pfx_mono_append h b
      rwa [List.cons_append] at h2
    · right
      exact ih b h

theorem hasInf_append_right {pat : Chars} (a : Chars) : ∀ {b : Chars},
    hasInf pat b = true → hasInf pat (a ++ b) = true := by
  induction a with
  | nil => intro b h; exact h
  | cons c cs ih =>
    intro b h
    rw [List.cons_append]
    simp only [hasInf, Bool.or_eq_true]
    right
    exact ih h

theorem bodyAfter_container : ∀ {w : Chars}, bodyAfter w = true →
    hasInf "container".data w = true := by
  intro w
  induction w with
  | nil => intro h; simp [bodyAfter] at h
  | cons c cs ih =>
    intro h
    simp only [bodyAfter, Bool.or_eq_true, Bool.and_eq_true] at h
    rcases h with ⟨hcl, hct, hne⟩ | ⟨hc, hrec⟩
    · have h1 : hasInf "container".data ((c :: cs).drop 7) = true := by
        have h2 := hasInf_append_left (((c :: cs).drop 7).dropWhile (fun x => decide (x ≠ '"'))) hct
        rwa [takeVal, List.takeWhile_append_dropWhile] at h2
      have h3 := hasInf_append_right ((c :: cs).take 7) h1
      rwa [List.take_append_drop] at h3
    · simp only [hasInf, Bool.or_eq_true]
      right
      exact ih hrec

theorem bodyGuard_container : ∀ {l : Chars}, bodyGuard l = true →
    hasInf "container".data l = true := by
  intro l
  induction l with
  | nil => intro h; simp [bodyGuard] at h
  | cons c cs ih =>
    intro h
    simp only [bodyGuard, Bool.or_eq_true, Bool.and_eq_true] at h
    rcases h with ⟨_, hba⟩ | hrec
    · have h1 := bodyAfter_container hba
      have h2 := hasInf_append_right ((c :: cs).take 5) h1
      rwa [List.take_append_drop] at h2
    · simp only [hasInf, Bool.or_eq_true]
      right
      exact ih hrec

theorem bodyGuard_false_of_no_container {l : Chars}
    (h : hasInf "container".data l = false) : bodyGuard l = false := by
  cases hg : bodyGuard l with
  | false => rfl
  | true => exact absurd (bodyGuard_container hg) (by simp [h])

/-- Claim C5 (counterexample).  The claim asserts head replacement and body
tagging succeed for `<head>`/`<body>` in any letter case or with extra
attributes.  Both regexes are case-sensitive and the head pattern admits no
attributes: on `<HEAD>x</HEAD><BODY>b</BODY>` the rewrite leaves the document
unchanged and no layout class is added. -/
theorem claim_C5_counterexample :
    headBody "<HEAD>x</HEAD><BODY>b</BODY>".data = "<HEAD>x</HEAD><BODY>b</BODY>".data ∧
    hasInf "class=\"container\"".data (headBody "<HEAD>x</HEAD><BODY>b</BODY>".data) = false :=
  ⟨by decide, by decide⟩

/-- Claim C5 (amended).  Head replacement applies exactly to a lowercase,
attribute-free `<head>…</head>` block, and body tagging to a lowercase
`<body` opener (extra attributes after `<body` are tolerated): for every
document `p ++ <head> ++ m ++ </head> ++ q1 ++ <body ++ q2` whose surrounding
text triggers no stray match and which does not already carry a `container`
class, the head block is fully replaced by the fixed responsive head and the
body tag receives the layout class. -/
theorem claim_C5 (p m q1 q2 : Chars)
    (h1 : cleanFor headRule p
      ("<head>".data ++ (m ++ ("</head>".data ++ (q1 ++ ("<body".data ++ q2))))) = true)
    (h2 : noHitB "</head>".data m ("</head>".data ++ (q1 ++ ("<body".data ++ q2))) = true)
    (h3 : cleanFor headRule (q1 ++ ("<body".data ++ q2)) [] = true)
    (h4 : hasInf "container".data
      (p ++ (responsiveHead.data ++ (q1 ++ ("<body".data ++ q2)))) = false)
    (h5 : cleanFor bodyRule ((p ++ responsiveHead.data) ++ q1) ("<body".data ++ q2) = true)
    (h6 : cleanFor bodyRule q2 [] = true) :
    headBody (p ++ ("<head>".data ++ (m ++ ("</head>".data ++ (q1 ++ ("<body".data ++ q2)))))) =
      p ++ (responsiveHead.data ++ (q1 ++ ("<body class=\"container\"".data ++ q2))) := by
  unfold headBody headStep
  rw [scan_append_clean p _ h1,
    scan_match headRule_consuming (headRule_match _ h2),
    scan_all_clean _ h3]
  unfold bodyStep
  rw [bodyGuard_false_of_no_container h4, if_neg (by simp)]
  have hgrp : p ++ (responsiveHead.data ++ (q1 ++ ("<body".data ++ q2))) =
      ((p ++ responsiveHead.data) ++ q1) ++ ("<body".data ++ q2) := by
    simp [List.append_assoc]
  rw [hgrp, scan_append_clean _ _ h5,
    scan_match bodyRule_consuming (bodyRule_match q2), scan_all_clean _ h6]
  simp [List.append_assoc]

/-- Witness for claim C5 at a concrete document. -/
theorem claim_C5_witness :
    (cleanFor headRule "<!doctype html>".data
      ("<head>".data ++ ("<title>t</title>".data ++ ("</head>".data ++ ("\n".data ++ ("<body".data ++ " lang=\"en\">hi</body>".data))))) = true ∧
    noHitB "</head>".data "<title>t</title>".data
      ("</head>".data ++ ("\n".data ++ ("<body".data ++ " lang=\"en\">hi</body>".data))) = true ∧
    cleanFor headRule ("\n".data ++ ("<body".data ++ " lang=\"en\">hi</body>".data)) [] = true ∧
    hasInf "container".data
      ("<!doctype html>".data ++ (responsiveHead.data ++ ("\n".data ++ ("<body".data ++ " lang=\"en\">hi</body>".data)))) = false ∧
    cleanFor bodyRule (("<!doctype html>".data ++ responsiveHead.data) ++ "\n".data)
      ("<body".data ++ " lang=\"en\">hi</body>".data) = true ∧
    cleanFor bodyRule " lang=\"en\">hi</body>".data [] = true) ∧
    headBody ("<!doctype html>".data ++ ("<head>".data ++ ("<title>t</title>".data ++ ("</head>".data ++ ("\n".data ++ ("<body".data ++ " lang=\"en\">hi</body>".data)))))) =
      "<!doctype html>".data ++ (responsiveHead.data ++ ("\n".data ++ ("<body class=\"container\"".data ++ " lang=\"en\">hi</body>".data))) :=
  ⟨⟨by decide, by decide, by decide, by decide, by decide, by decide⟩,
    claim_C5 "<!doctype html>".data "<title>t</title>".data "\n".data " lang=\"en\">hi</body>".data
      (by decide) (by decide) (by decide) (by decide) (by decide) (by decide)⟩

/-- Claim C10.  The relink regex exempts only values already prefixed
`images/`; it rewrites the `src` of every tag, so the absolute analytics
script URL injected into the head by `optimize_html` is itself rewritten to
`images/js?id=G-P8LYBP9EDY` (the basename keeping the query string).  The
script tag below occurs verbatim inside the injected responsive head. -/
theorem claim_C10 :
    relink "<script async src=\"https://www.googletagmanager.com/gtag/js?id=G-P8LYBP9EDY\"></script>".data =
      "<script async src=\"images/js?id=G-P8LYBP9EDY\"></script>".data ∧
    hasInf "<script async src=\"https://www.googletagmanager.com/gtag/js?id=G-P8LYBP9EDY\"></script>".data
      responsiveHead.data = true :=
  ⟨by decide, by decide⟩

/-! ### Image tag rewriting (`add_alt_attribute`, src/app.py lines 115-144)

Per matched `<img[^>]+>` tag: look up a description (`name` attribute in the
alt-text dict, else `src` basename when no `name` attribute, else a fixed
default), add the `img-line` class for `shape*` names, set/overwrite `alt`,
and ensure `img-fluid`. -/

/-- `([^>]*)>`: maximal `>`-free run plus closing `>`. -/
def chopGt : Chars → Option (Chars × Chars)
  | [] => none
  | c :: cs =>
    if c = '>' then some ([], cs)
    else (chopGt cs).map (fun p => (c :: p.1, p.2))

/-- `([^>]+)>`: as `chopGt` with a non-empty run. -/
def chopGt1 (l : Chars) : Option (Chars × Chars) :=
  match chopGt l with
  | some (v, rest) => if v.isEmpty then none else some (v, rest)
  | none => none

theorem chopGt_spec : ∀ {l v r : Chars}, chopGt l = some (v, r) →
    l = v ++ '>' :: r ∧ '>' ∉ v := by
  intro l
  induction l with
  | nil => intro v r h; simp [chopGt] at h
  | cons c cs ih =>
    intro v r h
    by_cases hc : c = '>'
    · subst hc
      simp only [chopGt, if_pos rfl] at h
      cases h
      simp
    · simp only [chopGt, if_neg hc] at h
      cases hcs : chopGt cs with
      | none => simp [hcs] at h
      | some p =>
        obtain ⟨v', r'⟩ := p
        simp only [hcs, Option.map_some'] at h
        cases h
        obtain ⟨hl, hq⟩ := ih hcs
        rw [hl]
        refine ⟨rfl, ?_⟩
        intro hmem
        rcases List.mem_cons.mp hmem with h | h
        · exact hc h.symm
        · exact hq h

theorem chopGt_eval {v : Chars} (hq : '>' ∉ v) (r : Chars) :
    chopGt (v ++ '>' :: r) = some (v, r) := by
  induction v with
  | nil => rfl
  | cons c cs ih =>
    have hc : c ≠ '>' := fun h => hq (h ▸ List.mem_cons_self c cs)
    have hcs : '>' ∉ cs := fun h => hq (List.mem_cons_of_mem c h)
    rw [List.cons_append]
    simp only [chopGt, if_neg hc, ih hcs]
    rfl

theorem chopGt1_eval {v : Chars} (hv : v ≠ []) (hq : '>' ∉ v) (r : Chars) :
    chopGt1 (v ++ '>' :: r) = some (v, r) := by
  unfold chopGt1
  rw [chopGt_eval hq]
  simp [List.isEmpty_iff, hv]

theorem chopGt1_len {l v r : Chars} (h : chopGt1 l = some (v, r)) : r.length < l.length := by
  unfold chopGt1 at h
  cases hcv : chopGt l with
  | none => simp [hcv] at h
  | some p =>
    obtain ⟨v', r'⟩ := p
    rw [hcv] at h
    by_cases he : v'.isEmpty
    · simp [he] at h
    · simp only [he, Bool.false_eq_true, if_false, Option.some.injEq, Prod.mk.injEq] at h
      obtain ⟨h1, h2⟩ := h
      subst h1; subst h2
      have := (chopGt_spec hcv).1
      subst this
      simp
      omega

/-- Python dict lookup `alt_texts[k]` as an association list. -/
def dictGet (d : List (Chars × Chars)) (k : Chars) : Option Chars :=
  match d with
  | [] => none
  | (k', v) :: rest => if k' = k then some v else dictGet rest k

/-- ASCII case folding, the effect of `str.lower()` on the tag names this
converter produces. -/
def asciiLower (c : Char) : Char :=
  if 'A' ≤ c ∧ c ≤ 'Z' then Char.ofNat (c.toNat + 32) else c

/-- `re.search(r'pat([^"]+)"')`: first position where `pat` is followed by a
non-empty quote-free capture and its closing quote. -/
def findVal (pat : Chars) : Chars → Option Chars
  | [] => none
  | c :: cs =>
    if pfx pat (c :: cs) then
      match chopVal1 ((c :: cs).drop pat.length) with
      | some p => some p.1
      | none => findVal pat cs
    else findVal pat cs

/-- `re.search(r'alt="[^"]*"')` as a presence test (the capture may be
empty). -/
def altPresent : Chars → Bool
  | [] => false
  | c :: cs =>
    (pfx "alt=\"".data (c :: cs) && (chopVal ((c :: cs).drop 5)).isSome) || altPresent cs

/-- `re.sub(r'class="([^"]+)"', lambda m: f'class="{m.group(1)} word"', tag)`
at one position. -/
def clsAppendRule (word : Chars) (l : Chars) : Option (Chars × Chars) :=
  if pfx "class=\"".data l then
    match chopVal1 (l.drop 7) with
    | some p => some ("class=\"".data ++ p.1 ++ (' ' :: word ++ ['"']), p.2)
    | none => none
  else none

/-- `re.sub(r'<img', ins, tag)` at one position. -/
def imgInsRule (ins : Chars) (l : Chars) : Option (Chars × Chars) :=
  if pfx "<img".data l then some (ins, l.drop 4) else none

/-- `re.sub(r'alt="[^"]*"', f'alt="desc"', tag)` at one position. -/
def altRule (desc : Chars) (l : Chars) : Option (Chars × Chars) :=
  if pfx "alt=\"".data l then
    match chopVal (l.drop 5) with
    | some p => some ("alt=\"".data ++ desc ++ ['"'], p.2)
    | none => none
  else none

/-- Description selection of `add_alt_attribute`: the `name` attribute is
looked up in the alt-text dict; only when there is no `name` attribute does
the `src` basename serve as lookup key; otherwise the fixed default. -/
def descFor (alts : List (Chars × Chars)) (nameV srcV : Option Chars) : Chars :=
  match nameV with
  | some n => (dictGet alts n).getD "Illustration from the document".data
  | none =>
    match srcV with
    | some s => (dictGet alts (basename s)).getD "Illustration from the document".data
    | none => "Illustration from the document".data

/-- The `shape*` branch of `add_alt_attribute`: names starting with `shape`
(case-insensitive) get the `img-line` class, unless the tag already contains
the substring `img-line`, or by insertion after `<img` when there is no
`class=` substring. -/
def shapeStep (nameV : Option Chars) (tag : Chars) : Chars :=
  match nameV with
  | some n =>
    if pfx "shape".data (n.map asciiLower) then
      if hasInf "class=".data tag then
        if hasInf "img-line".data tag then tag
        else scan (clsAppendRule "img-line".data) tag
      else scan (imgInsRule "<img class=\"img-line\"".data) tag
    else tag
  | none => tag

/-- The alt handling of `add_alt_attribute`: overwrite an existing `alt`
attribute with the description, or insert one after `<img`. -/
def altStep (desc tag : Chars) : Chars :=
  if altPresent tag then scan (altRule desc) tag
  else scan (imgInsRule ("<img alt=\"".data ++ desc ++ ['"'])) tag

/-- The `img-fluid` tail of `add_alt_attribute`: append to the class values,
or insert a class after `<img`, unless `img-fluid` already occurs in the
tag. -/
def fluidStep (tag : Chars) : Chars :=
  if hasInf "class=".data tag then
    if hasInf "img-fluid".data tag then tag
    else scan (clsAppendRule "img-fluid".data) tag
  else scan (imgInsRule "<img class=\"img-fluid\"".data) tag

/-- The `add_alt_attribute` callback of `optimize_html`, applied to one
matched `<img…>` tag (src/app.py lines 115-143): `name`/`src` searches on the
original tag, then the shape branch, the alt set/overwrite, and the
`img-fluid` tail, in source order. -/
def addAltAttribute (alts : List (Chars × Chars)) (tag0 : Chars) : Chars :=
  fluidStep
    (altStep
      (descFor alts (findVal "name=\"".data tag0) (findVal "src=\"".data tag0))
      (shapeStep (findVal "name=\"".data tag0) tag0))

/-- Matcher for the outer `re.sub(r'<img[^>]+>', add_alt_attribute, html)`. -/
def imgTagRule (alts : List (Chars × Chars)) (l : Chars) : Option (Chars × Chars) :=
  if pfx "<img".data l then
    match chopGt1 (l.drop 4) with
    | some p => some (addAltAttribute alts ("<img".data ++ p.1 ++ ['>']), p.2)
    | none => none
  else none

/-- The image-rewriting pass of `optimize_html` over the whole HTML text. -/
def imgStep (alts : List (Chars × Chars)) (l : Chars) : Chars := scan (imgTagRule alts) l

theorem imgTagRule_consuming (alts : List (Chars × Chars)) : Consuming (imgTagRule alts) := by
  intro l v r h
  unfold imgTagRule at h
  by_cases hp : pfx "<img".data l
  · rw [if_pos hp] at h
    cases hcg : chopGt1 (l.drop 4) with
    | none => simp [hcg] at h
    | some p =>
      obtain ⟨a, b⟩ := p
      rw [hcg] at h
      cases h
      have h1 := chopGt1_len hcg
      have h4 : ("<img".data : Chars).length ≤ l.length := pfx_len_le hp
      simp at h4
      simp [List.length_drop] at h1
      show b.length < l.length
      omega
  · simp [hp] at h

/-- `findClean pat t R`: no successful `pat("…")` search hit starts inside
`t` when followed by `R`. -/
def findClean (pat t R : Chars) : Bool :=
  t.tails.all (fun t2 => t2.isEmpty ||
    !(pfx pat (t2 ++ R)) || (chopVal1 ((t2 ++ R).drop pat.length)).isNone)

theorem findVal_append {pat : Chars} : ∀ {t : Chars} (R : Chars),
    findClean pat t R = true → findVal pat (t ++ R) = findVal pat R := by
  intro t
  induction t with
  | nil => intro R _; rfl
  | cons c t ih =>
    intro R h
    simp only [findClean, List.tails, List.all_cons, Bool.and_eq_true] at h
    obtain ⟨hhead, htail⟩ := h
    rw [List.cons_append]
    have hun : findVal pat (c :: (t ++ R)) =
        (if pfx pat (c :: (t ++ R)) = true then
          match chopVal1 ((c :: (t ++ R)).drop pat.length) with
          | some p => some p.1
          | none => findVal pat (t ++ R)
        else findVal pat (t ++ R)) := rfl
    rw [hun]
    by_cases hp : pfx pat (c :: (t ++ R)) = true
    · have hcv : chopVal1 ((c :: (t ++ R)).drop pat.length) = none := by
        simp only [List.isEmpty_cons, Bool.false_or, List.cons_append, Bool.or_eq_true,
          Bool.not_eq_true', Option.isNone_iff_eq_none] at hhead
        rcases hhead with h1 | h1
        · exact absurd hp (by simp [h1])
        · exact h1
      rw [if_pos hp, hcv]
      exact ih R htail
    · rw [if_neg hp]
      exact ih R htail

theorem findVal_nil (pat : Chars) : findVal pat [] = none := rfl

theorem findVal_all_none {pat t : Chars} (h : findClean pat t [] = true) :
    findVal pat t = none := by
  have h2 := findVal_append [] h
  rw [List.append_nil] at h2
  rw [h2, findVal_nil]

theorem findVal_here (pat : Chars) (hne : pat ≠ []) {v : Chars} (hv : v ≠ [])
    (hq : '"' ∉ v) (R : Chars) :
    findVal pat (pat ++ (v ++ '"' :: R)) = some v := by
  obtain ⟨x, xs, hpat⟩ := List.exists_cons_of_ne_nil hne
  have hcons : pat ++ (v ++ '"' :: R) = x :: (xs ++ (v ++ '"' :: R)) := by rw [hpat]; rfl
  rw [hcons]
  unfold findVal
  rw [if_pos (by rw [← hcons]; exact pfx_append_self _ _)]
  have hdrop : (x :: (xs ++ (v ++ '"' :: R))).drop pat.length = v ++ '"' :: R := by
    rw [← hcons]
    exact drop_len_append _ _ rfl
  rw [hdrop, chopVal1_eval hv hq R]

/-- `altClean t R`: no `alt="[^"]*"` search hit starts inside `t` when
followed by `R`. -/
def altClean (t R : Chars) : Bool :=
  t.tails.all (fun t2 => t2.isEmpty ||
    !(pfx "alt=\"".data (t2 ++ R)) || !((chopVal ((t2 ++ R).drop 5)).isSome))

theorem altPresent_append : ∀ {t : Chars} (R : Chars),
    altClean t R = true → altPresent (t ++ R) = altPresent R := by
  intro t
  induction t with
  | nil => intro R _; rfl
  | cons c t ih =>
    intro R h
    simp only [altClean, List.tails, List.all_cons, Bool.and_eq_true] at h
    obtain ⟨hhead, htail⟩ := h
    rw [List.cons_append]
    have hun : altPresent (c :: (t ++ R)) =
        ((pfx "alt=\"".data (c :: (t ++ R)) && (chopVal ((c :: (t ++ R)).drop 5)).isSome) ||
          altPresent (t ++ R)) := rfl
    rw [hun]
    simp only [List.isEmpty_cons, Bool.false_or, List.cons_append, Bool.or_eq_true,
      Bool.not_eq_true'] at hhead
    have hfail : (pfx "alt=\"".data (c :: (t ++ R)) && (chopVal ((c :: (t ++ R)).drop 5)).isSome) = false := by
      rcases hhead with h1 | h1
      · rw [h1, Bool.false_and]
      · rw [h1, Bool.and_false]
    rw [hfail]
    simp only [Bool.false_or]
    exact ih R htail

theorem altPresent_false {t : Chars} (h : altClean t [] = true) : altPresent t = false := by
  have h2 := altPresent_append [] h
  rw [List.append_nil] at h2
  rw [h2]
  rfl

theorem altPresent_here {a : Chars} (hq : '"' ∉ a) (R : Chars) :
    altPresent ("alt=\"".data ++ (a ++ '"' :: R)) = true := by
  have hcons : ("alt=\"".data : Chars) ++ (a ++ '"' :: R) = 'a' :: ("lt=\"".data ++ (a ++ '"' :: R)) := rfl
  rw [hcons]
  unfold altPresent
  rw [← hcons]
  have hp := pfx_append_self "alt=\"".data (a ++ '"' :: R)
  have hdrop : (("alt=\"".data : Chars) ++ (a ++ '"' :: R)).drop 5 = a ++ '"' :: R :=
    drop_len_append _ _ rfl
  rw [hp, hdrop, chopVal_eval hq R]
  rfl

theorem clsAppendRule_consuming (w : Chars) : Consuming (clsAppendRule w) := by
  intro l v r h
  unfold clsAppendRule at h
  by_cases hp : pfx "class=\"".data l
  · rw [if_pos hp] at h
    cases hcv : chopVal1 (l.drop 7) with
    | none => simp [hcv] at h
    | some p =>
      obtain ⟨a, b⟩ := p
      rw [hcv] at h
      cases h
      have h1 := chopVal1_len hcv
      have h2 : ("class=\"".data : Chars).length ≤ l.length := pfx_len_le hp
      simp at h2
      simp [List.length_drop] at h1
      show b.length < l.length
      omega
  · simp [hp] at h

theorem clsAppendRule_match (w : Chars) {c : Chars} (hc : c ≠ []) (hq : '"' ∉ c) (R : Chars) :
    clsAppendRule w ("class=\"".data ++ (c ++ '"' :: R)) =
      some ("class=\"".data ++ c ++ (' ' :: w ++ ['"']), R) := by
  unfold clsAppendRule
  rw [if_pos (pfx_append_self _ _)]
  have hdrop : (("class=\"".data : Chars) ++ (c ++ '"' :: R)).drop 7 = c ++ '"' :: R :=
    drop_len_append _ _ rfl
  rw [hdrop, chopVal1_eval hc hq R]

theorem imgInsRule_consuming (ins : Chars) : Consuming (imgInsRule ins) := by
  intro l v r h
  unfold imgInsRule at h
  by_cases hp : pfx "<img".data l
  · rw [if_pos hp] at h
    cases h
    have h2 : ("<img".data : Chars).length ≤ l.length := pfx_len_le hp
    simp at h2
    simp [List.length_drop]
    omega
  · simp [hp] at h

theorem imgInsRule_match (ins R : Chars) :
    imgInsRule ins ("<img".data ++ R) = some (ins, R) := by
  unfold imgInsRule
  have hdrop : (("<img".data : Chars) ++ R).drop 4 = R := drop_len_append _ _ rfl
  rw [if_pos (pfx_append_self _ _), hdrop]

theorem altRule_consuming (d : Chars) : Consuming (altRule d) := by
  intro l v r h
  unfold altRule at h
  by_cases hp : pfx "alt=\"".data l
  · rw [if_pos hp] at h
    cases hcv : chopVal (l.drop 5) with
    | none => simp [hcv] at h
    | some p =>
      obtain ⟨a, b⟩ := p
      rw [hcv] at h
      cases h
      have h1 := chopVal_len hcv
      have h2 : ("alt=\"".data : Chars).length ≤ l.length := pfx_len_le hp
      simp at h2
      simp [List.length_drop] at h1
      show b.length < l.length
      omega
  · simp [hp] at h

theorem altRule_match (d : Chars) {a : Chars} (hq : '"' ∉ a) (R : Chars) :
    altRule d ("alt=\"".data ++ (a ++ '"' :: R)) = some ("alt=\"".data ++ d ++ ['"'], R) := by
  unfold altRule
  rw [if_pos (pfx_append_self _ _)]
  have hdrop : (("alt=\"".data : Chars) ++ (a ++ '"' :: R)).drop 5 = a ++ '"' :: R :=
    drop_len_append _ _ rfl
  rw [hdrop, chopVal_eval hq R]

theorem hasInf_here {pat r : Chars} (h : pfx pat r = true) : hasInf pat r = true := by
  cases r with
  | nil => simpa [hasInf] using h
  | cons c cs => simp [hasInf, h]

theorem hasInf_at (pat a b : Chars) (hp : pfx pat b = true) : hasInf pat (a ++ b) = true :=
  hasInf_append_right a (hasInf_here hp)

/-- One-substitution evaluation of a scan: a clean prefix `A`, then one match
at the head of `M` leaving remainder `R`, itself clean. -/
theorem scan_once {rule : Chars → Option (Chars × Chars)} (hc : Consuming rule)
    {A M R out : Chars} (h1 : cleanFor rule A M = true)
    (h2 : rule M = some (out, R)) (h3 : cleanFor rule R [] = true) :
    scan rule (A ++ M) = A ++ (out ++ R) := by
  rw [scan_append_clean A _ h1, scan_match hc h2, scan_all_clean R h3]

/-- As `scan_once` with the match at the very front. -/
theorem scan_once_head {rule : Chars → Option (Chars × Chars)} (hc : Consuming rule)
    {M R out : Chars} (h2 : rule M = some (out, R))
    (h3 : cleanFor rule R [] = true) : scan rule M = out ++ R := by
  rw [scan_match hc h2, scan_all_clean R h3]

/-! ### Canonical image tags -/

/-- The attribute tail ` name="n" src="s">` of a canonical image tag. -/
def rest0 (n s : Chars) : Chars :=
  " name=\"".data ++ (n ++ ("\" src=\"".data ++ (s ++ "\">".data)))

/-- A canonical `<img name="n" src="s">` tag. -/
def tagF1 (n s : Chars) : Chars := "<img".data ++ rest0 n s

/-- The description `add_alt_attribute` uses for a tag whose `name` is `n`. -/
def descOf (alts : List (Chars × Chars)) (n : Chars) : Chars :=
  (dictGet alts n).getD "Illustration from the document".data

theorem tagF1_name_search (n s : Chars) (hn : n ≠ []) (hnq : '"' ∉ n) :
    findVal "name=\"".data (tagF1 n s) = some n := by
  have e1 : tagF1 n s =
      "<img ".data ++ ("name=\"".data ++ (n ++ ('"' :: (" src=\"".data ++ (s ++ "\">".data))))) := rfl
  have hskip : findClean "name=\"".data "<img ".data
      ("name=\"".data ++ (n ++ ('"' :: (" src=\"".data ++ (s ++ "\">".data))))) = true := by rfl
  have h2 := findVal_append _ hskip
  have h5 := findVal_here "name=\"".data (by decide) hn hnq (" src=\"".data ++ (s ++ "\">".data))
  rw [e1, h2, h5]

theorem tagF1_src_search (n s : Chars) (hs : s ≠ []) (hsq : '"' ∉ s)
    (hfs : findClean "src=\"".data n ("\" src=\"".data ++ (s ++ "\">".data)) = true) :
    findVal "src=\"".data (tagF1 n s) = some s := by
  have e1 : tagF1 n s = "<img name=\"".data ++ (n ++ ("\" src=\"".data ++ (s ++ "\">".data))) := rfl
  have hskip1 : findClean "src=\"".data "<img name=\"".data
      (n ++ ("\" src=\"".data ++ (s ++ "\">".data))) = true := by rfl
  have h2 := findVal_append _ hskip1
  have h3 := findVal_append _ hfs
  have e2 : ("\" src=\"".data : Chars) ++ (s ++ "\">".data) =
      "\" ".data ++ ("src=\"".data ++ (s ++ ('"' :: ">".data))) := rfl
  have hskip2 : findClean "src=\"".data "\" ".data
      ("src=\"".data ++ (s ++ ('"' :: ">".data))) = true := by rfl
  have h4 := findVal_append _ hskip2
  have h5 := findVal_here "src=\"".data (by decide) hs hsq (">".data)
  rw [e1, h2, h3, e2, h4, h5]

/-- Evaluation of `add_alt_attribute` on a canonical non-shape
`<img name="n" src="s">` tag: the description is inserted as `alt` and the
`img-fluid` class is inserted in front. -/
theorem addAlt_F1_plain (alts : List (Chars × Chars)) (n s : Chars)
    (hn : n ≠ []) (hnq : '"' ∉ n) (hs : s ≠ []) (hsq : '"' ∉ s)
    (hsh : pfx "shape".data (n.map asciiLower) = false)
    (hfs : findClean "src=\"".data n ("\" src=\"".data ++ (s ++ "\">".data)) = true)
    (hap : altPresent (tagF1 n s) = false)
    (hcf1 : cleanFor (imgInsRule ("<img alt=\"".data ++ descOf alts n ++ ['"'])) (rest0 n s) [] = true)
    (hcl2 : hasInf "class=".data (("<img alt=\"".data ++ descOf alts n ++ ['"']) ++ rest0 n s) = false)
    (hcf2 : cleanFor (imgInsRule "<img class=\"img-fluid\"".data)
      (" alt=\"".data ++ (descOf alts n ++ ('"' :: rest0 n s))) [] = true) :
    addAltAttribute alts (tagF1 n s) =
      "<img class=\"img-fluid\"".data ++ (" alt=\"".data ++ (descOf alts n ++ ('"' :: rest0 n s))) := by
  have hname := tagF1_name_search n s hn hnq
  have hsrc := tagF1_src_search n s hs hsq hfs
  unfold addAltAttribute
  rw [hname, hsrc]
  have hdesc : descFor alts (some n) (some s) = descOf alts n := rfl
  have hshape : shapeStep (some n) (tagF1 n s) = tagF1 n s := by
    simp [shapeStep, hsh]
  rw [hdesc, hshape]
  have halt : altStep (descOf alts n) (tagF1 n s) =
      ("<img alt=\"".data ++ descOf alts n ++ ['"']) ++ rest0 n s := by
    unfold altStep
    rw [hap, if_neg (by simp)]
    unfold tagF1
    exact scan_once_head (imgInsRule_consuming _) (imgInsRule_match _ _) hcf1
  rw [halt]
  unfold fluidStep
  rw [hcl2, if_neg (by simp)]
  have e2 : ("<img alt=\"".data ++ descOf alts n ++ ['"']) ++ rest0 n s =
      "<img".data ++ (" alt=\"".data ++ (descOf alts n ++ ('"' :: rest0 n s))) := by
    simp [List.append_assoc,
      (show ("<img alt=\"".data : Chars) = "<img".data ++ " alt=\"".data by decide)]
  rw [e2]
  exact scan_once_head (imgInsRule_consuming _) (imgInsRule_match _ _) hcf2

/-- Evaluation of `add_alt_attribute` on a canonical shape-named
`<img name="n" src="s">` tag without a class attribute: the `img-line` class
is inserted, the description inserted as `alt`, and `img-fluid` appended to
the class. -/
theorem addAlt_F1_shape (alts : List (Chars × Chars)) (n s : Chars)
    (hn : n ≠ []) (hnq : '"' ∉ n) (hs : s ≠ []) (hsq : '"' ∉ s)
    (hsh : pfx "shape".data (n.map asciiLower) = true)
    (hfs : findClean "src=\"".data n ("\" src=\"".data ++ (s ++ "\">".data)) = true)
    (hcl0 : hasInf "class=".data (tagF1 n s) = false)
    (hcfL : cleanFor (imgInsRule "<img class=\"img-line\"".data) (rest0 n s) [] = true)
    (hap1 : altPresent ("<img class=\"img-line\"".data ++ rest0 n s) = false)
    (hcf1 : cleanFor (imgInsRule ("<img alt=\"".data ++ descOf alts n ++ ['"']))
      (" class=\"img-line\"".data ++ rest0 n s) [] = true)
    (hif2 : hasInf "img-fluid".data
      (("<img alt=\"".data ++ (descOf alts n ++ "\" ".data)) ++
        ("class=\"".data ++ ("img-line".data ++ ('"' :: rest0 n s)))) = false)
    (hcfA : cleanFor (clsAppendRule "img-fluid".data)
      ("<img alt=\"".data ++ (descOf alts n ++ "\" ".data))
      ("class=\"".data ++ ("img-line".data ++ ('"' :: rest0 n s))) = true)
    (hcfR : cleanFor (clsAppendRule "img-fluid".data) (rest0 n s) [] = true) :
    addAltAttribute alts (tagF1 n s) =
      "<img alt=\"".data ++ (descOf alts n ++ ("\" class=\"img-line img-fluid\"".data ++ rest0 n s)) := by
  have hname := tagF1_name_search n s hn hnq
  have hsrc := tagF1_src_search n s hs hsq hfs
  unfold addAltAttribute
  rw [hname, hsrc]
  have hdesc : descFor alts (some n) (some s) = descOf alts n := rfl
  rw [hdesc]
  have hshape : shapeStep (some n) (tagF1 n s) = "<img class=\"img-line\"".data ++ rest0 n s := by
    simp only [shapeStep]
    rw [if_pos hsh, hcl0, if_neg (by simp)]
    unfold tagF1
    exact scan_once_head (imgInsRule_consuming _) (imgInsRule_match _ _) hcfL
  rw [hshape]
  have halt : altStep (descOf alts n) ("<img class=\"img-line\"".data ++ rest0 n s) =
      ("<img alt=\"".data ++ descOf alts n ++ ['"']) ++ (" class=\"img-line\"".data ++ rest0 n s) := by
    unfold altStep
    rw [hap1, if_neg (by simp)]
    have e1 : ("<img class=\"img-line\"".data : Chars) ++ rest0 n s =
        "<img".data ++ (" class=\"img-line\"".data ++ rest0 n s) := rfl
    rw [e1]
    exact scan_once_head (imgInsRule_consuming _) (imgInsRule_match _ _) hcf1
  rw [halt]
  have hbr : ('"' :: (" class=\"img-line\"".data ++ rest0 n s)) =
      "\" ".data ++ ("class=\"".data ++ ("img-line".data ++ ('"' :: rest0 n s))) := rfl
  have e2 : ("<img alt=\"".data ++ descOf alts n ++ ['"']) ++ (" class=\"img-line\"".data ++ rest0 n s) =
      ("<img alt=\"".data ++ (descOf alts n ++ "\" ".data)) ++
        ("class=\"".data ++ ("img-line".data ++ ('"' :: rest0 n s))) := by
    simp only [List.append_assoc, List.singleton_append, hbr]
  rw [e2]
  unfold fluidStep
  have hcl : hasInf "class=".data
      (("<img alt=\"".data ++ (descOf alts n ++ "\" ".data)) ++
        ("class=\"".data ++ ("img-line".data ++ ('"' :: rest0 n s)))) = true :=
    hasInf_at _ _ _ (by rfl)
  rw [hcl, if_pos rfl, hif2, if_neg (by simp)]
  have hm := clsAppendRule_match "img-fluid".data (c := "img-line".data) (by decide) (by decide)
    (rest0 n s)
  have := scan_once (clsAppendRule_consuming "img-fluid".data) hcfA hm hcfR
  rw [this]
  simp only [List.append_assoc, List.cons_append, List.singleton_append]
  rfl

/-- A canonical `<img src="s">` tag without a `name` attribute. -/
def tagF2 (s : Chars) : Chars := "<img src=\"".data ++ (s ++ "\">".data)

/-- The description used when only a `src` attribute is present: the `src`
basename is the lookup key. -/
def descSrc (alts : List (Chars × Chars)) (s : Chars) : Chars :=
  (dictGet alts (basename s)).getD "Illustration from the document".data

theorem tagF2_src_search (s : Chars) (hs : s ≠ []) (hsq : '"' ∉ s) :
    findVal "src=\"".data (tagF2 s) = some s := by
  have e1 : tagF2 s = "<img ".data ++ ("src=\"".data ++ (s ++ ('"' :: ">".data))) := rfl
  have hskip : findClean "src=\"".data "<img ".data
      ("src=\"".data ++ (s ++ ('"' :: ">".data))) = true := by rfl
  have h2 := findVal_append _ hskip
  have h5 := findVal_here "src=\"".data (by decide) hs hsq (">".data)
  rw [e1, h2, h5]

/-- Evaluation of `add_alt_attribute` on a canonical `<img src="s">` tag
without a `name` attribute: the `src` basename is the fallback lookup key for
the description. -/
theorem addAlt_F2 (alts : List (Chars × Chars)) (s : Chars)
    (hs : s ≠ []) (hsq : '"' ∉ s)
    (hfn : findClean "name=\"".data (tagF2 s) [] = true)
    (hap : altPresent (tagF2 s) = false)
    (hcf1 : cleanFor (imgInsRule ("<img alt=\"".data ++ descSrc alts s ++ ['"']))
      (" src=\"".data ++ (s ++ "\">".data)) [] = true)
    (hcl2 : hasInf "class=".data
      (("<img alt=\"".data ++ descSrc alts s ++ ['"']) ++ (" src=\"".data ++ (s ++ "\">".data))) = false)
    (hcf2 : cleanFor (imgInsRule "<img class=\"img-fluid\"".data)
      (" alt=\"".data ++ (descSrc alts s ++ ('"' :: (" src=\"".data ++ (s ++ "\">".data))))) [] = true) :
    addAltAttribute alts (tagF2 s) =
      "<img class=\"img-fluid\"".data ++
        (" alt=\"".data ++ (descSrc alts s ++ ('"' :: (" src=\"".data ++ (s ++ "\">".data))))) := by
  have hname : findVal "name=\"".data (tagF2 s) = none := findVal_all_none hfn
  have hsrc := tagF2_src_search s hs hsq
  unfold addAltAttribute
  rw [hname, hsrc]
  have hdesc : descFor alts none (some s) = descSrc alts s := rfl
  have hshape : shapeStep none (tagF2 s) = tagF2 s := rfl
  rw [hdesc, hshape]
  have halt : altStep (descSrc alts s) (tagF2 s) =
      ("<img alt=\"".data ++ descSrc alts s ++ ['"']) ++ (" src=\"".data ++ (s ++ "\">".data)) := by
    unfold altStep
    rw [hap, if_neg (by simp)]
    have e1 : tagF2 s = "<img".data ++ (" src=\"".data ++ (s ++ "\">".data)) := rfl
    rw [e1]
    exact scan_once_head (imgInsRule_consuming _) (imgInsRule_match _ _) hcf1
  rw [halt]
  unfold fluidStep
  rw [hcl2, if_neg (by simp)]
  have e2 : ("<img alt=\"".data ++ descSrc alts s ++ ['"']) ++ (" src=\"".data ++ (s ++ "\">".data)) =
      "<img".data ++ (" alt=\"".data ++ (descSrc alts s ++ ('"' :: (" src=\"".data ++ (s ++ "\">".data))))) := by
    simp [List.append_assoc,
      (show ("<img alt=\"".data : Chars) = "<img".data ++ " alt=\"".data by decide)]
  rw [e2]
  exact scan_once_head (imgInsRule_consuming _) (imgInsRule_match _ _) hcf2

/-- A canonical `<img name="n" alt="a" src="s">` tag with an existing alt
attribute. -/
def tagF4 (n a s : Chars) : Chars :=
  "<img name=\"".data ++ (n ++ ("\" alt=\"".data ++ (a ++ ("\" src=\"".data ++ (s ++ "\">".data)))))

theorem tagF4_name_search (n a s : Chars) (hn : n ≠ []) (hnq : '"' ∉ n) :
    findVal "name=\"".data (tagF4 n a s) = some n := by
  have e1 : tagF4 n a s = "<img ".data ++ ("name=\"".data ++ (n ++ ('"' ::
      (" alt=\"".data ++ (a ++ ("\" src=\"".data ++ (s ++ "\">".data))))))) := rfl
  have hskip : findClean "name=\"".data "<img ".data
      ("name=\"".data ++ (n ++ ('"' ::
        (" alt=\"".data ++ (a ++ ("\" src=\"".data ++ (s ++ "\">".data))))))) = true := by rfl
  have h2 := findVal_append _ hskip
  have h5 := findVal_here "name=\"".data (by decide) hn hnq
    (" alt=\"".data ++ (a ++ ("\" src=\"".data ++ (s ++ "\">".data))))
  rw [e1, h2, h5]

/-- Evaluation of `add_alt_attribute` on a canonical non-shape
`<img name="n" alt="a" src="s">` tag: the existing alt value is overwritten
with the description and the `img-fluid` class is inserted in front. -/
theorem addAlt_F4 (alts : List (Chars × Chars)) (n a s : Chars)
    (hn : n ≠ []) (hnq : '"' ∉ n) (haq : '"' ∉ a)
    (hsh : pfx "shape".data (n.map asciiLower) = false)
    (hac : altClean ("<img name=\"".data ++ (n ++ "\" ".data))
      ("alt=\"".data ++ (a ++ ('"' :: (" src=\"".data ++ (s ++ "\">".data))))) = true)
    (hcfA : cleanFor (altRule (descOf alts n)) ("<img name=\"".data ++ (n ++ "\" ".data))
      ("alt=\"".data ++ (a ++ ('"' :: (" src=\"".data ++ (s ++ "\">".data))))) = true)
    (hcfR : cleanFor (altRule (descOf alts n)) (" src=\"".data ++ (s ++ "\">".data)) [] = true)
    (hcl2 : hasInf "class=".data
      (("<img name=\"".data ++ (n ++ "\" ".data)) ++
        (("alt=\"".data ++ descOf alts n ++ ['"']) ++ (" src=\"".data ++ (s ++ "\">".data)))) = false)
    (hcf2 : cleanFor (imgInsRule "<img class=\"img-fluid\"".data)
      (" name=\"".data ++ (n ++ ("\" ".data ++ (("alt=\"".data ++ descOf alts n ++ ['"']) ++
        (" src=\"".data ++ (s ++ "\">".data)))))) [] = true) :
    addAltAttribute alts (tagF4 n a s) =
      "<img class=\"img-fluid\"".data ++
        (" name=\"".data ++ (n ++ ("\" ".data ++ (("alt=\"".data ++ descOf alts n ++ ['"']) ++
          (" src=\"".data ++ (s ++ "\">".data)))))) := by
  have hname := tagF4_name_search n a s hn hnq
  unfold addAltAttribute
  rw [hname]
  have hdesc : ∀ X, descFor alts (some n) X = descOf alts n := fun _ => rfl
  have hshape : shapeStep (some n) (tagF4 n a s) = tagF4 n a s := by
    simp [shapeStep, hsh]
  rw [hdesc, hshape]
  have hbr : ∀ Y : Chars, ("\" alt=\"".data : Chars) ++ Y = "\" ".data ++ ("alt=\"".data ++ Y) :=
    fun _ => rfl
  have e1 : tagF4 n a s = ("<img name=\"".data ++ (n ++ "\" ".data)) ++
      ("alt=\"".data ++ (a ++ ('"' :: (" src=\"".data ++ (s ++ "\">".data))))) := by
    unfold tagF4
    have hbr2 : ("\" src=\"".data : Chars) ++ (s ++ "\">".data) =
        '"' :: (" src=\"".data ++ (s ++ "\">".data)) := rfl
    simp only [List.append_assoc, hbr, hbr2]
  have hap : altPresent (tagF4 n a s) = true := by
    rw [e1, altPresent_append _ hac]
    exact altPresent_here haq _
  have halt : altStep (descOf alts n) (tagF4 n a s) =
      ("<img name=\"".data ++ (n ++ "\" ".data)) ++
        (("alt=\"".data ++ descOf alts n ++ ['"']) ++ (" src=\"".data ++ (s ++ "\">".data))) := by
    unfold altStep
    rw [hap, if_pos rfl, e1]
    exact scan_once (altRule_consuming _) hcfA (altRule_match _ haq _) hcfR
  rw [halt]
  unfold fluidStep
  rw [hcl2, if_neg (by simp)]
  have e2 : ("<img name=\"".data ++ (n ++ "\" ".data)) ++
      (("alt=\"".data ++ descOf alts n ++ ['"']) ++ (" src=\"".data ++ (s ++ "\">".data))) =
      "<img".data ++ (" name=\"".data ++ (n ++ ("\" ".data ++ (("alt=\"".data ++ descOf alts n ++ ['"']) ++
        (" src=\"".data ++ (s ++ "\">".data)))))) := by
    simp [List.append_assoc,
      (show ("<img name=\"".data : Chars) = "<img".data ++ " name=\"".data by decide)]
  rw [e2]
  exact scan_once_head (imgInsRule_consuming _) (imgInsRule_match _ _) hcf2

/-- A canonical `<img name="n" class="c" src="s">` tag. -/
def tagF3 (n c s : Chars) : Chars :=
  "<img name=\"".data ++ (n ++ ("\" class=\"".data ++ (c ++ ("\" src=\"".data ++ (s ++ "\">".data)))))

theorem tagF3_name_search (n c s : Chars) (hn : n ≠ []) (hnq : '"' ∉ n) :
    findVal "name=\"".data (tagF3 n c s) = some n := by
  have e1 : tagF3 n c s = "<img ".data ++ ("name=\"".data ++ (n ++ ('"' ::
      (" class=\"".data ++ (c ++ ("\" src=\"".data ++ (s ++ "\">".data))))))) := rfl
  have hskip : findClean "name=\"".data "<img ".data
      ("name=\"".data ++ (n ++ ('"' ::
        (" class=\"".data ++ (c ++ ("\" src=\"".data ++ (s ++ "\">".data))))))) = true := by rfl
  have h2 := findVal_append _ hskip
  have h5 := findVal_here "name=\"".data (by decide) hn hnq
    (" class=\"".data ++ (c ++ ("\" src=\"".data ++ (s ++ "\">".data))))
  rw [e1, h2, h5]

theorem tagF3_grouped (n c s : Chars) : tagF3 n c s =
    ("<img name=\"".data ++ (n ++ "\" ".data)) ++
      ("class=\"".data ++ (c ++ ('"' :: (" src=\"".data ++ (s ++ "\">".data))))) := by
  unfold tagF3
  have hbr : ∀ Y : Chars, ("\" class=\"".data : Chars) ++ Y = "\" ".data ++ ("class=\"".data ++ Y) :=
    fun _ => rfl
  have hbr2 : ("\" src=\"".data : Chars) ++ (s ++ "\">".data) =
      '"' :: (" src=\"".data ++ (s ++ "\">".data)) := rfl
  simp only [List.append_assoc, hbr, hbr2]

/-- Evaluation of `add_alt_attribute` on a canonical shape-named
`<img name="n" class="c" src="s">` tag whose text does not contain
`img-line`: `img-line` is appended to the class values, the description
inserted as `alt`, and `img-fluid` appended after it. -/
theorem addAlt_F3_append (alts : List (Chars × Chars)) (n c s : Chars)
    (hn : n ≠ []) (hnq : '"' ∉ n) (hc : c ≠ []) (hcq : '"' ∉ c)
    (hsh : pfx "shape".data (n.map asciiLower) = true)
    (himl : hasInf "img-line".data (tagF3 n c s) = false)
    (hcfA0 : cleanFor (clsAppendRule "img-line".data) ("<img name=\"".data ++ (n ++ "\" ".data))
      ("class=\"".data ++ (c ++ ('"' :: (" src=\"".data ++ (s ++ "\">".data))))) = true)
    (hcfR0 : cleanFor (clsAppendRule "img-line".data) (" src=\"".data ++ (s ++ "\">".data)) [] = true)
    (hap1 : altPresent (("<img name=\"".data ++ (n ++ "\" ".data)) ++
      (("class=\"".data ++ c ++ (' ' :: "img-line".data ++ ['"'])) ++
        (" src=\"".data ++ (s ++ "\">".data)))) = false)
    (hcf1 : cleanFor (imgInsRule ("<img alt=\"".data ++ descOf alts n ++ ['"']))
      (" name=\"".data ++ (n ++ ("\" ".data ++ (("class=\"".data ++ c ++ (' ' :: "img-line".data ++ ['"'])) ++
        (" src=\"".data ++ (s ++ "\">".data)))))) [] = true)
    (hif2 : hasInf "img-fluid".data
      ((("<img alt=\"".data ++ descOf alts n ++ ['"']) ++ (" name=\"".data ++ (n ++ "\" ".data))) ++
        ("class=\"".data ++ ((c ++ (' ' :: "img-line".data)) ++ ('"' ::
          (" src=\"".data ++ (s ++ "\">".data)))))) = false)
    (hcfA2 : cleanFor (clsAppendRule "img-fluid".data)
      (("<img alt=\"".data ++ descOf alts n ++ ['"']) ++ (" name=\"".data ++ (n ++ "\" ".data)))
      ("class=\"".data ++ ((c ++ (' ' :: "img-line".data)) ++ ('"' ::
        (" src=\"".data ++ (s ++ "\">".data))))) = true)
    (hcfR2 : cleanFor (clsAppendRule "img-fluid".data) (" src=\"".data ++ (s ++ "\">".data)) [] = true) :
    addAltAttribute alts (tagF3 n c s) =
      (("<img alt=\"".data ++ descOf alts n ++ ['"']) ++ (" name=\"".data ++ (n ++ "\" ".data))) ++
        (("class=\"".data ++ (c ++ (' ' :: "img-line".data)) ++ (' ' :: "img-fluid".data ++ ['"'])) ++
          (" src=\"".data ++ (s ++ "\">".data))) := by
  have hname := tagF3_name_search n c s hn hnq
  unfold addAltAttribute
  rw [hname]
  have hdesc : ∀ X, descFor alts (some n) X = descOf alts n := fun _ => rfl
  rw [hdesc]
  have hcl0 : hasInf "class=".data (tagF3 n c s) = true := by
    rw [tagF3_grouped]
    exact hasInf_at _ _ _ (by rfl)
  have hshape : shapeStep (some n) (tagF3 n c s) =
      ("<img name=\"".data ++ (n ++ "\" ".data)) ++
        (("class=\"".data ++ c ++ (' ' :: "img-line".data ++ ['"'])) ++
          (" src=\"".data ++ (s ++ "\">".data))) := by
    simp only [shapeStep]
    rw [if_pos hsh, hcl0, if_pos rfl, himl, if_neg (by simp), tagF3_grouped]
    exact scan_once (clsAppendRule_consuming _) hcfA0
      (clsAppendRule_match "img-line".data hc hcq _) hcfR0
  rw [hshape]
  have halt : altStep (descOf alts n)
      (("<img name=\"".data ++ (n ++ "\" ".data)) ++
        (("class=\"".data ++ c ++ (' ' :: "img-line".data ++ ['"'])) ++
          (" src=\"".data ++ (s ++ "\">".data)))) =
      ("<img alt=\"".data ++ descOf alts n ++ ['"']) ++
        (" name=\"".data ++ (n ++ ("\" ".data ++ (("class=\"".data ++ c ++ (' ' :: "img-line".data ++ ['"'])) ++
          (" src=\"".data ++ (s ++ "\">".data)))))) := by
    unfold altStep
    rw [hap1, if_neg (by simp)]
    have e1 : ("<img name=\"".data ++ (n ++ "\" ".data)) ++
        (("class=\"".data ++ c ++ (' ' :: "img-line".data ++ ['"'])) ++
          (" src=\"".data ++ (s ++ "\">".data))) =
        "<img".data ++ (" name=\"".data ++ (n ++ ("\" ".data ++
          (("class=\"".data ++ c ++ (' ' :: "img-line".data ++ ['"'])) ++
            (" src=\"".data ++ (s ++ "\">".data)))))) := by
      simp [List.append_assoc,
        (show ("<img name=\"".data : Chars) = "<img".data ++ " name=\"".data by decide)]
    rw [e1]
    exact scan_once_head (imgInsRule_consuming _) (imgInsRule_match _ _) hcf1
  rw [halt]
  have hcq2 : '"' ∉ c ++ (' ' :: "img-line".data) := by
    intro hmem
    rcases List.mem_append.mp hmem with h1 | h1
    · exact hcq h1
    · exact absurd h1 (by decide)
  have e2 : ("<img alt=\"".data ++ descOf alts n ++ ['"']) ++
      (" name=\"".data ++ (n ++ ("\" ".data ++ (("class=\"".data ++ c ++ (' ' :: "img-line".data ++ ['"'])) ++
        (" src=\"".data ++ (s ++ "\">".data)))))) =
      (("<img alt=\"".data ++ descOf alts n ++ ['"']) ++ (" name=\"".data ++ (n ++ "\" ".data))) ++
        ("class=\"".data ++ ((c ++ (' ' :: "img-line".data)) ++ ('"' ::
          (" src=\"".data ++ (s ++ "\">".data))))) := by
    simp [List.append_assoc]
  rw [e2]
  unfold fluidStep
  have hcl2 : hasInf "class=".data
      ((("<img alt=\"".data ++ descOf alts n ++ ['"']) ++ (" name=\"".data ++ (n ++ "\" ".data))) ++
        ("class=\"".data ++ ((c ++ (' ' :: "img-line".data)) ++ ('"' ::
          (" src=\"".data ++ (s ++ "\">".data)))))) = true :=
    hasInf_at _ _ _ (by rfl)
  rw [hcl2, if_pos rfl, hif2, if_neg (by simp)]
  have hm := clsAppendRule_match "img-fluid".data
    (c := c ++ (' ' :: "img-line".data)) (by simp) hcq2 (" src=\"".data ++ (s ++ "\">".data))
  exact scan_once (clsAppendRule_consuming _) hcfA2 hm hcfR2

/-- Evaluation of `add_alt_attribute` on a canonical shape-named
`<img name="n" class="c" src="s">` tag that already contains `img-line` (in
its class value): the `img-line` append is skipped, so no duplicate is
produced; only `alt` is inserted and `img-fluid` appended. -/
theorem addAlt_F3_skip (alts : List (Chars × Chars)) (n c s : Chars)
    (hn : n ≠ []) (hnq : '"' ∉ n) (hc : c ≠ []) (hcq : '"' ∉ c)
    (hsh : pfx "shape".data (n.map asciiLower) = true)
    (himl : hasInf "img-line".data (tagF3 n c s) = true)
    (hap1 : altPresent (tagF3 n c s) = false)
    (hcf1 : cleanFor (imgInsRule ("<img alt=\"".data ++ descOf alts n ++ ['"']))
      (" name=\"".data ++ (n ++ ("\" class=\"".data ++ (c ++ ("\" src=\"".data ++ (s ++ "\">".data)))))) [] = true)
    (hif2 : hasInf "img-fluid".data
      ((("<img alt=\"".data ++ descOf alts n ++ ['"']) ++ (" name=\"".data ++ (n ++ "\" ".data))) ++
        ("class=\"".data ++ (c ++ ('"' :: (" src=\"".data ++ (s ++ "\">".data)))))) = false)
    (hcfA2 : cleanFor (clsAppendRule "img-fluid".data)
      (("<img alt=\"".data ++ descOf alts n ++ ['"']) ++ (" name=\"".data ++ (n ++ "\" ".data)))
      ("class=\"".data ++ (c ++ ('"' :: (" src=\"".data ++ (s ++ "\">".data))))) = true)
    (hcfR2 : cleanFor (clsAppendRule "img-fluid".data) (" src=\"".data ++ (s ++ "\">".data)) [] = true) :
    addAltAttribute alts (tagF3 n c s) =
      (("<img alt=\"".data ++ descOf alts n ++ ['"']) ++ (" name=\"".data ++ (n ++ "\" ".data))) ++
        (("class=\"".data ++ c ++ (' ' :: "img-fluid".data ++ ['"'])) ++
          (" src=\"".data ++ (s ++ "\">".data))) := by
  have hname := tagF3_name_search n c s hn hnq
  unfold addAltAttribute
  rw [hname]
  have hdesc : ∀ X, descFor alts (some n) X = descOf alts n := fun _ => rfl
  rw [hdesc]
  have hcl0 : hasInf "class=".data (tagF3 n c s) = true := by
    rw [tagF3_grouped]
    exact hasInf_at _ _ _ (by rfl)
  have hshape : shapeStep (some n) (tagF3 n c s) = tagF3 n c s := by
    simp only [shapeStep]
    rw [if_pos hsh, hcl0, if_pos rfl, himl, if_pos rfl]
  rw [hshape]
  have halt : altStep (descOf alts n) (tagF3 n c s) =
      ("<img alt=\"".data ++ descOf alts n ++ ['"']) ++
        (" name=\"".data ++ (n ++ ("\" class=\"".data ++ (c ++ ("\" src=\"".data ++ (s ++ "\">".data)))))) := by
    unfold altStep
    rw [hap1, if_neg (by simp)]
    have e1 : tagF3 n c s = "<img".data ++
        (" name=\"".data ++ (n ++ ("\" class=\"".data ++ (c ++ ("\" src=\"".data ++ (s ++ "\">".data)))))) := rfl
    rw [e1]
    exact scan_once_head (imgInsRule_consuming _) (imgInsRule_match _ _) hcf1
  rw [halt]
  have e2 : ("<img alt=\"".data ++ descOf alts n ++ ['"']) ++
      (" name=\"".data ++ (n ++ ("\" class=\"".data ++ (c ++ ("\" src=\"".data ++ (s ++ "\">".data)))))) =
      (("<img alt=\"".data ++ descOf alts n ++ ['"']) ++ (" name=\"".data ++ (n ++ "\" ".data))) ++
        ("class=\"".data ++ (c ++ ('"' :: (" src=\"".data ++ (s ++ "\">".data))))) := by
    have hbr : ∀ Y : Chars, ("\" class=\"".data : Chars) ++ Y = "\" ".data ++ ("class=\"".data ++ Y) :=
      fun _ => rfl
    have hbr2 : ("\" src=\"".data : Chars) ++ (s ++ "\">".data) =
        '"' :: (" src=\"".data ++ (s ++ "\">".data)) := rfl
    simp only [List.append_assoc, hbr, hbr2]
  rw [e2]
  unfold fluidStep
  have hcl2 : hasInf "class=".data
      ((("<img alt=\"".data ++ descOf alts n ++ ['"']) ++ (" name=\"".data ++ (n ++ "\" ".data))) ++
        ("class=\"".data ++ (c ++ ('"' :: (" src=\"".data ++ (s ++ "\">".data)))))) = true :=
    hasInf_at _ _ _ (by rfl)
  rw [hcl2, if_pos rfl, hif2, if_neg (by simp)]
  exact scan_once (clsAppendRule_consuming _) hcfA2
    (clsAppendRule_match "img-fluid".data hc hcq _) hcfR2

theorem pfx_append_both (x : Chars) {p y : Chars} (h : pfx p y = true) :
    pfx (x ++ p) (x ++ y) = true := by
  induction x with
  | nil => exact h
  | cons c cs ih => simp [pfx, ih]

theorem dictGet_mem : ∀ {d : List (Chars × Chars)} {k v : Chars},
    dictGet d k = some v → (k, v) ∈ d := by
  intro d
  induction d with
  | nil => intro k v h; simp [dictGet] at h
  | cons p rest ih =>
    intro k v h
    obtain ⟨k2, v2⟩ := p
    unfold dictGet at h
    by_cases hk : k2 = k
    · rw [if_pos hk] at h
      cases h
      subst hk
      exact List.mem_cons_self _ _
    · rw [if_neg hk] at h
      exact List.mem_cons_of_mem _ (ih h)

theorem descOf_ne_nil {alts : List (Chars × Chars)} (n : Chars)
    (hvals : ∀ p ∈ alts, p.2 ≠ []) : descOf alts n ≠ [] := by
  unfold descOf
  cases hget : dictGet alts n with
  | none => simp
  | some v => simpa using hvals _ (dictGet_mem hget)

theorem descOf_no_quote {alts : List (Chars × Chars)} (n : Chars)
    (hvals : ∀ p ∈ alts, '"' ∉ p.2) : '"' ∉ descOf alts n := by
  unfold descOf
  cases hget : dictGet alts n with
  | none =>
    simp only [Option.getD_none]
    decide
  | some v => simpa using hvals _ (dictGet_mem hget)

/-- Bundled side conditions for `addAlt_F1_plain`, decidable at concrete
inputs. -/
def okF1plain (alts : List (Chars × Chars)) (n s : Chars) : Bool :=
  decide (n ≠ []) && (decide ('"' ∉ n) && (decide (s ≠ []) && (decide ('"' ∉ s) &&
  (!(pfx "shape".data (n.map asciiLower)) &&
  (findClean "src=\"".data n ("\" src=\"".data ++ (s ++ "\">".data)) &&
  (!(altPresent (tagF1 n s)) &&
  (cleanFor (imgInsRule ("<img alt=\"".data ++ descOf alts n ++ ['"'])) (rest0 n s) [] &&
  (!(hasInf "class=".data (("<img alt=\"".data ++ descOf alts n ++ ['"']) ++ rest0 n s)) &&
  cleanFor (imgInsRule "<img class=\"img-fluid\"".data)
    (" alt=\"".data ++ (descOf alts n ++ ('"' :: rest0 n s))) []))))))))

/-- Output of `add_alt_attribute` on a plain canonical tag. -/
def outF1plain (alts : List (Chars × Chars)) (n s : Chars) : Chars :=
  "<img class=\"img-fluid\"".data ++ (" alt=\"".data ++ (descOf alts n ++ ('"' :: rest0 n s)))

theorem addAlt_F1_plain_ok (alts : List (Chars × Chars)) (n s : Chars)
    (h : okF1plain alts n s = true) :
    addAltAttribute alts (tagF1 n s) = outF1plain alts n s := by
  simp only [okF1plain, Bool.and_eq_true, Bool.not_eq_true', decide_eq_true_eq] at h
  obtain ⟨h1, h2, h3, h4, h5, h6, h7, h8, h9, h10⟩ := h
  exact addAlt_F1_plain alts n s h1 h2 h3 h4 h5 h6 h7 h8 h9 h10

/-- Bundled side conditions for `addAlt_F1_shape`. -/
def okF1shape (alts : List (Chars × Chars)) (n s : Chars) : Bool :=
  decide (n ≠ []) && (decide ('"' ∉ n) && (decide (s ≠ []) && (decide ('"' ∉ s) &&
  (pfx "shape".data (n.map asciiLower) &&
  (findClean "src=\"".data n ("\" src=\"".data ++ (s ++ "\">".data)) &&
  (!(hasInf "class=".data (tagF1 n s)) &&
  (cleanFor (imgInsRule "<img class=\"img-line\"".data) (rest0 n s) [] &&
  (!(altPresent ("<img class=\"img-line\"".data ++ rest0 n s)) &&
  (cleanFor (imgInsRule ("<img alt=\"".data ++ descOf alts n ++ ['"']))
    (" class=\"img-line\"".data ++ rest0 n s) [] &&
  (!(hasInf "img-fluid".data
      (("<img alt=\"".data ++ (descOf alts n ++ "\" ".data)) ++
        ("class=\"".data ++ ("img-line".data ++ ('"' :: rest0 n s))))) &&
  (cleanFor (clsAppendRule "img-fluid".data)
    ("<img alt=\"".data ++ (descOf alts n ++ "\" ".data))
    ("class=\"".data ++ ("img-line".data ++ ('"' :: rest0 n s))) &&
  cleanFor (clsAppendRule "img-fluid".data) (rest0 n s) [])))))))))))

/-- Output of `add_alt_attribute` on a shape-named canonical tag with no
class attribute. -/
def outF1shape (alts : List (Chars × Chars)) (n s : Chars) : Chars :=
  "<img alt=\"".data ++ (descOf alts n ++ ("\" class=\"img-line img-fluid\"".data ++ rest0 n s))

theorem addAlt_F1_shape_ok (alts : List (Chars × Chars)) (n s : Chars)
    (h : okF1shape alts n s = true) :
    addAltAttribute alts (tagF1 n s) = outF1shape alts n s := by
  simp only [okF1shape, Bool.and_eq_true, Bool.not_eq_true', decide_eq_true_eq] at h
  obtain ⟨h1, h2, h3, h4, h5, h6, h7, h8, h9, h10, h11, h12, h13⟩ := h
  exact addAlt_F1_shape alts n s h1 h2 h3 h4 h5 h6 h7 h8 h9 h10 h11 h12 h13

/-- Bundled side conditions for `addAlt_F2`. -/
def okF2 (alts : List (Chars × Chars)) (s : Chars) : Bool :=
  decide (s ≠ []) && (decide ('"' ∉ s) &&
  (findClean "name=\"".data (tagF2 s) [] &&
  (!(altPresent (tagF2 s)) &&
  (cleanFor (imgInsRule ("<img alt=\"".data ++ descSrc alts s ++ ['"']))
    (" src=\"".data ++ (s ++ "\">".data)) [] &&
  (!(hasInf "class=".data
    (("<img alt=\"".data ++ descSrc alts s ++ ['"']) ++ (" src=\"".data ++ (s ++ "\">".data)))) &&
  cleanFor (imgInsRule "<img class=\"img-fluid\"".data)
    (" alt=\"".data ++ (descSrc alts s ++ ('"' :: (" src=\"".data ++ (s ++ "\">".data))))) [])))))

/-- Output of `add_alt_attribute` on a canonical tag without `name`. -/
def outF2 (alts : List (Chars × Chars)) (s : Chars) : Chars :=
  "<img class=\"img-fluid\"".data ++
    (" alt=\"".data ++ (descSrc alts s ++ ('"' :: (" src=\"".data ++ (s ++ "\">".data)))))

theorem addAlt_F2_ok (alts : List (Chars × Chars)) (s : Chars)
    (h : okF2 alts s = true) : addAltAttribute alts (tagF2 s) = outF2 alts s := by
  simp only [okF2, Bool.and_eq_true, Bool.not_eq_true', decide_eq_true_eq] at h
  obtain ⟨h1, h2, h3, h4, h5, h6, h7⟩ := h
  exact addAlt_F2 alts s h1 h2 h3 h4 h5 h6 h7

/-- Bundled side conditions for `addAlt_F4`. -/
def okF4 (alts : List (Chars × Chars)) (n a s : Chars) : Bool :=
  decide (n ≠ []) && (decide ('"' ∉ n) && (decide ('"' ∉ a) &&
  (!(pfx "shape".data (n.map asciiLower)) &&
  (altClean ("<img name=\"".data ++ (n ++ "\" ".data))
    ("alt=\"".data ++ (a ++ ('"' :: (" src=\"".data ++ (s ++ "\">".data))))) &&
  (cleanFor (altRule (descOf alts n)) ("<img name=\"".data ++ (n ++ "\" ".data))
    ("alt=\"".data ++ (a ++ ('"' :: (" src=\"".data ++ (s ++ "\">".data))))) &&
  (cleanFor (altRule (descOf alts n)) (" src=\"".data ++ (s ++ "\">".data)) [] &&
  (!(hasInf "class=".data
    (("<img name=\"".data ++ (n ++ "\" ".data)) ++
      (("alt=\"".data ++ descOf alts n ++ ['"']) ++ (" src=\"".data ++ (s ++ "\">".data))))) &&
  cleanFor (imgInsRule "<img class=\"img-fluid\"".data)
    (" name=\"".data ++ (n ++ ("\" ".data ++ (("alt=\"".data ++ descOf alts n ++ ['"']) ++
      (" src=\"".data ++ (s ++ "\">".data)))))) [])))))))

/-- Output of `add_alt_attribute` on a canonical tag with an existing alt. -/
def outF4 (alts : List (Chars × Chars)) (n s : Chars) : Chars :=
  "<img class=\"img-fluid\"".data ++
    (" name=\"".data ++ (n ++ ("\" ".data ++ (("alt=\"".data ++ descOf alts n ++ ['"']) ++
      (" src=\"".data ++ (s ++ "\">".data))))))

theorem addAlt_F4_ok (alts : List (Chars × Chars)) (n a s : Chars)
    (h : okF4 alts n a s = true) : addAltAttribute alts (tagF4 n a s) = outF4 alts n s := by
  simp only [okF4, Bool.and_eq_true, Bool.not_eq_true', decide_eq_true_eq] at h
  obtain ⟨h1, h2, h3, h4, h5, h6, h7, h8, h9⟩ := h
  exact addAlt_F4 alts n a s h1 h2 h3 h4 h5 h6 h7 h8 h9

/-- Bundled side conditions for `addAlt_F3_append`. -/
def okF3app (alts : List (Chars × Chars)) (n c s : Chars) : Bool :=
  decide (n ≠ []) && (decide ('"' ∉ n) && (decide (c ≠ []) && (decide ('"' ∉ c) &&
  (pfx "shape".data (n.map asciiLower) &&
  (!(hasInf "img-line".data (tagF3 n c s)) &&
  (cleanFor (clsAppendRule "img-line".data) ("<img name=\"".data ++ (n ++ "\" ".data))
    ("class=\"".data ++ (c ++ ('"' :: (" src=\"".data ++ (s ++ "\">".data))))) &&
  (cleanFor (clsAppendRule "img-line".data) (" src=\"".data ++ (s ++ "\">".data)) [] &&
  (!(altPresent (("<img name=\"".data ++ (n ++ "\" ".data)) ++
      (("class=\"".data ++ c ++ (' ' :: "img-line".data ++ ['"'])) ++
        (" src=\"".data ++ (s ++ "\">".data))))) &&
  (cleanFor (imgInsRule ("<img alt=\"".data ++ descOf alts n ++ ['"']))
    (" name=\"".data ++ (n ++ ("\" ".data ++ (("class=\"".data ++ c ++ (' ' :: "img-line".data ++ ['"'])) ++
      (" src=\"".data ++ (s ++ "\">".data)))))) [] &&
  (!(hasInf "img-fluid".data
      ((("<img alt=\"".data ++ descOf alts n ++ ['"']) ++ (" name=\"".data ++ (n ++ "\" ".data))) ++
        ("class=\"".data ++ ((c ++ (' ' :: "img-line".data)) ++ ('"' ::
          (" src=\"".data ++ (s ++ "\">".data))))))) &&
  (cleanFor (clsAppendRule "img-fluid".data)
    (("<img alt=\"".data ++ descOf alts n ++ ['"']) ++ (" name=\"".data ++ (n ++ "\" ".data)))
    ("class=\"".data ++ ((c ++ (' ' :: "img-line".data)) ++ ('"' ::
      (" src=\"".data ++ (s ++ "\">".data))))) &&
  cleanFor (clsAppendRule "img-fluid".data) (" src=\"".data ++ (s ++ "\">".data)) [])))))))))))

/-- Output of `add_alt_attribute` on a shape-named canonical tag carrying a
class attribute without `img-line`. -/
def outF3app (alts : List (Chars × Chars)) (n c s : Chars) : Chars :=
  (("<img alt=\"".data ++ descOf alts n ++ ['"']) ++ (" name=\"".data ++ (n ++ "\" ".data))) ++
    (("class=\"".data ++ (c ++ (' ' :: "img-line".data)) ++ (' ' :: "img-fluid".data ++ ['"'])) ++
      (" src=\"".data ++ (s ++ "\">".data)))

theorem addAlt_F3_append_ok (alts : List (Chars × Chars)) (n c s : Chars)
    (h : okF3app alts n c s = true) :
    addAltAttribute alts (tagF3 n c s) = outF3app alts n c s := by
  simp only [okF3app, Bool.and_eq_true, Bool.not_eq_true', decide_eq_true_eq] at h
  obtain ⟨h1, h2, h3, h4, h5, h6, h7, h8, h9, h10, h11, h12, h13⟩ := h
  exact addAlt_F3_append alts n c s h1 h2 h3 h4 h5 h6 h7 h8 h9 h10 h11 h12 h13

/-- Bundled side conditions for `addAlt_F3_skip`. -/
def okF3skip (alts : List (Chars × Chars)) (n c s : Chars) : Bool :=
  decide (n ≠ []) && (decide ('"' ∉ n) && (decide (c ≠ []) && (decide ('"' ∉ c) &&
  (pfx "shape".data (n.map asciiLower) &&
  (hasInf "img-line".data (tagF3 n c s) &&
  (!(altPresent (tagF3 n c s)) &&
  (cleanFor (imgInsRule ("<img alt=\"".data ++ descOf alts n ++ ['"']))
    (" name=\"".data ++ (n ++ ("\" class=\"".data ++ (c ++ ("\" src=\"".data ++ (s ++ "\">".data)))))) [] &&
  (!(hasInf "img-fluid".data
      ((("<img alt=\"".data ++ descOf alts n ++ ['"']) ++ (" name=\"".data ++ (n ++ "\" ".data))) ++
        ("class=\"".data ++ (c ++ ('"' :: (" src=\"".data ++ (s ++ "\">".data))))))) &&
  (cleanFor (clsAppendRule "img-fluid".data)
    (("<img alt=\"".data ++ descOf alts n ++ ['"']) ++ (" name=\"".data ++ (n ++ "\" ".data)))
    ("class=\"".data ++ (c ++ ('"' :: (" src=\"".data ++ (s ++ "\">".data))))) &&
  cleanFor (clsAppendRule "img-fluid".data) (" src=\"".data ++ (s ++ "\">".data)) [])))))))))

/-- Output of `add_alt_attribute` on a shape-named canonical tag whose text
already contains `img-line`. -/
def outF3skip (alts : List (Chars × Chars)) (n c s : Chars) : Chars :=
  (("<img alt=\"".data ++ descOf alts n ++ ['"']) ++ (" name=\"".data ++ (n ++ "\" ".data))) ++
    (("class=\"".data ++ c ++ (' ' :: "img-fluid".data ++ ['"'])) ++
      (" src=\"".data ++ (s ++ "\">".data)))

theorem addAlt_F3_skip_ok (alts : List (Chars × Chars)) (n c s : Chars)
    (h : okF3skip alts n c s = true) :
    addAltAttribute alts (tagF3 n c s) = outF3skip alts n c s := by
  simp only [okF3skip, Bool.and_eq_true, Bool.not_eq_true', decide_eq_true_eq] at h
  obtain ⟨h1, h2, h3, h4, h5, h6, h7, h8, h9, h10, h11⟩ := h
  exact addAlt_F3_skip alts n c s h1 h2 h3 h4 h5 h6 h7 h8 h9 h10 h11

/-- C3 counterexample: the image pass only matches `<img[^>]+>`, so the
bare tag `<img>` passes through unchanged and carries no `alt` attribute at
all, contradicting "the attribute is never absent". -/
theorem claim_C3_counterexample :
    imgStep [] "<img>".data = "<img>".data ∧
      hasInf "alt=".data "<img>".data = false := by
  exact ⟨by decide, by decide⟩

/-- C3 (amended): for canonical `<img name="n" src="s">` tags matched by the
image pass (at least one character between `<img` and `>`), under the
decidable no-stray-match side conditions and an alt-text index with non-blank
quote-free descriptions, the rewritten tag carries `alt="<desc>"` with a
non-empty description: the indexed description when the `name` lookup hits,
the fixed default string otherwise; an existing `alt` value is overwritten
likewise. -/
theorem claim_C3 (alts : List (Chars × Chars)) (n s n2 a2 s2 : Chars)
    (hvals : ∀ p ∈ alts, p.2 ≠ [] ∧ '"' ∉ p.2)
    (h1 : okF1plain alts n s = true) (h2 : okF4 alts n2 a2 s2 = true) :
    (addAltAttribute alts (tagF1 n s) = outF1plain alts n s ∧
      hasInf ("alt=\"".data ++ (descOf alts n ++ ['"'])) (outF1plain alts n s) = true ∧
      descOf alts n ≠ []) ∧
    (addAltAttribute alts (tagF4 n2 a2 s2) = outF4 alts n2 s2 ∧
      hasInf ("alt=\"".data ++ (descOf alts n2 ++ ['"'])) (outF4 alts n2 s2) = true ∧
      descOf alts n2 ≠ []) ∧
    (dictGet alts n = none → descOf alts n = "Illustration from the document".data) ∧
    (∀ d, dictGet alts n = some d → descOf alts n = d) := by
  refine ⟨⟨addAlt_F1_plain_ok alts n s h1, ?_, descOf_ne_nil n (fun p hp => (hvals p hp).1)⟩,
    ⟨addAlt_F4_ok alts n2 a2 s2 h2, ?_, descOf_ne_nil n2 (fun p hp => (hvals p hp).1)⟩, ?_, ?_⟩
  · have e : outF1plain alts n s =
        "<img class=\"img-fluid\" ".data ++
          ("alt=\"".data ++ (descOf alts n ++ ('"' :: rest0 n s))) := rfl
    rw [e]
    exact hasInf_at _ _ _ (pfx_append_both _ (pfx_append_both _ (by simp [pfx])))
  · have e : outF4 alts n2 s2 =
        "<img class=\"img-fluid\"".data ++ (" name=\"".data ++ (n2 ++ ("\" ".data ++
          (("alt=\"".data ++ descOf alts n2 ++ ['"']) ++
            (" src=\"".data ++ (s2 ++ "\">".data)))))) := rfl
    rw [e]
    apply hasInf_append_right
    apply hasInf_append_right
    apply hasInf_append_right
    apply hasInf_append_right
    apply hasInf_here
    have e2 : ("alt=\"".data ++ descOf alts n2 ++ ['"']) ++
        (" src=\"".data ++ (s2 ++ "\">".data)) =
        "alt=\"".data ++ (descOf alts n2 ++ ('"' :: (" src=\"".data ++ (s2 ++ "\">".data)))) := by
      simp [List.append_assoc]
    rw [e2]
    exact pfx_append_both _ (pfx_append_both _ (by simp [pfx]))
  · intro h
    unfold descOf
    rw [h]
    rfl
  · intro d h
    unfold descOf
    rw [h]
    rfl

/-- C3 witness on the concrete index { pic.png ↦ A pic } and the tag
`<img name="photo1" src="x.png">`. -/
theorem claim_C3_witness :
    addAltAttribute [("pic.png".data, "A pic".data)] (tagF1 "photo1".data "x.png".data) =
      outF1plain [("pic.png".data, "A pic".data)] "photo1".data "x.png".data ∧
    descOf [("pic.png".data, "A pic".data)] "photo1".data ≠ [] := by
  have h := claim_C3 [("pic.png".data, "A pic".data)] "photo1".data "x.png".data
    "photo1".data "old".data "x.png".data (by decide) (by decide) (by decide)
  exact ⟨h.1.1, h.1.2.2⟩

/-- C4 counterexample: with index { pic.png ↦ A pic } and the tag
`<img name="X" src="pic.png">`, whose `name` misses the index while its `src`
basename hits it, the rewrite still uses the fixed default description: the
`src` fallback is never consulted when a `name` attribute exists, because the
source uses `elif src_match` (src/app.py line 129). -/
theorem claim_C4_counterexample :
    addAltAttribute [("pic.png".data, "A pic".data)] (tagF1 "X".data "pic.png".data) =
      ("<img class=\"img-fluid\" alt=\"Illustration from the document\"" ++
        " name=\"X\" src=\"pic.png\">").data ∧
    hasInf "A pic".data
      (addAltAttribute [("pic.png".data, "A pic".data)] (tagF1 "X".data "pic.png".data)) = false := by
  exact ⟨by decide, by decide⟩

/-- C4 (amended): the description comes from the `name` lookup when the tag
has a `name` attribute — indexed value on a hit, fixed default on a miss,
with no fallback to the `src` key; only a tag without any `name` attribute
uses the `src` basename as lookup key. -/
theorem claim_C4 (alts : List (Chars × Chars)) (n s s2 d : Chars)
    (h1 : okF1plain alts n s = true) (h2 : okF2 alts s2 = true) :
    (dictGet alts n = some d →
      addAltAttribute alts (tagF1 n s) = outF1plain alts n s ∧ descOf alts n = d) ∧
    (dictGet alts n = none →
      addAltAttribute alts (tagF1 n s) = outF1plain alts n s ∧
        descOf alts n = "Illustration from the document".data) ∧
    (addAltAttribute alts (tagF2 s2) = outF2 alts s2 ∧
      descSrc alts s2 =
        (dictGet alts (basename s2)).getD "Illustration from the document".data) := by
  refine ⟨fun h => ⟨addAlt_F1_plain_ok alts n s h1, ?_⟩,
    fun h => ⟨addAlt_F1_plain_ok alts n s h1, ?_⟩,
    addAlt_F2_ok alts s2 h2, rfl⟩
  · unfold descOf
    rw [h]
    rfl
  · unfold descOf
    rw [h]
    rfl

/-- C4 witness: `name` miss uses the default even though the `src` basename
key is present in the index, and a nameless tag uses the `src` basename
key. -/
theorem claim_C4_witness :
    (addAltAttribute [("pic.png".data, "A pic".data)] (tagF1 "photo1".data "x.png".data) =
      outF1plain [("pic.png".data, "A pic".data)] "photo1".data "x.png".data ∧
      descOf [("pic.png".data, "A pic".data)] "photo1".data =
        "Illustration from the document".data) ∧
    addAltAttribute [("pic.png".data, "A pic".data)] (tagF2 "media/pic.png".data) =
      outF2 [("pic.png".data, "A pic".data)] "media/pic.png".data := by
  have h := claim_C4 [("pic.png".data, "A pic".data)] "photo1".data "x.png".data
    "media/pic.png".data [] (by decide) (by decide)
  exact ⟨h.2.1 (by decide), h.2.2.1⟩

/-- C9 counterexample: for `<img name="shape1" class="x" src="img-line.png">`
the substring test `if 'img-line' not in img_tag` (src/app.py line 127) is
fooled by the `src` value, so `img-line` is never added to the class: the
rewritten class value is `x img-fluid`, missing the line-shape class. -/
theorem claim_C9_counterexample :
    addAltAttribute [] "<img name=\"shape1\" class=\"x\" src=\"img-line.png\">".data =
      ("<img alt=\"Illustration from the document\" name=\"shape1\"" ++
        " class=\"x img-fluid\" src=\"img-line.png\">").data ∧
    findVal "class=\"".data
      (addAltAttribute [] "<img name=\"shape1\" class=\"x\" src=\"img-line.png\">".data) =
      some "x img-fluid".data ∧
    hasInf "img-line".data "x img-fluid".data = false := by
  exact ⟨by decide, by decide, by decide⟩

/-- C9 (amended): for canonical shape-named tags whose text outside the class
value does not already contain the marker substrings, the rewritten tag
carries both classes: with no class attribute a `class="img-line img-fluid"`
is inserted; with a class attribute lacking `img-line` both classes are
appended to its value; and when the tag text already contains `img-line` the
append is skipped (no duplicate) while `img-fluid` is still appended. -/
theorem claim_C9 (alts : List (Chars × Chars)) (n1 s1 n2 c2 s2 n3 c3 s3 : Chars)
    (h1 : okF1shape alts n1 s1 = true)
    (h2 : okF3app alts n2 c2 s2 = true)
    (h3 : okF3skip alts n3 c3 s3 = true) :
    (addAltAttribute alts (tagF1 n1 s1) = outF1shape alts n1 s1 ∧
      hasInf "img-line img-fluid".data (outF1shape alts n1 s1) = true) ∧
    (addAltAttribute alts (tagF3 n2 c2 s2) = outF3app alts n2 c2 s2 ∧
      hasInf (' ' :: ("img-line".data ++ (' ' :: "img-fluid".data)))
        (outF3app alts n2 c2 s2) = true) ∧
    (addAltAttribute alts (tagF3 n3 c3 s3) = outF3skip alts n3 c3 s3 ∧
      hasInf "img-fluid".data (outF3skip alts n3 c3 s3) = true ∧
      hasInf "img-line".data (tagF3 n3 c3 s3) = true) := by
  have h3c := h3
  simp only [okF3skip, Bool.and_eq_true] at h3c
  refine ⟨⟨addAlt_F1_shape_ok alts n1 s1 h1, ?_⟩,
    ⟨addAlt_F3_append_ok alts n2 c2 s2 h2, ?_⟩,
    ⟨addAlt_F3_skip_ok alts n3 c3 s3 h3, ?_, h3c.2.2.2.2.2.1⟩⟩
  · have hbr : ("\" class=\"img-line img-fluid\"".data : Chars) ++ rest0 n1 s1 =
        "\" class=\"".data ++ ("img-line img-fluid".data ++ ('"' :: rest0 n1 s1)) := rfl
    have e : outF1shape alts n1 s1 =
        "<img alt=\"".data ++ (descOf alts n1 ++ ("\" class=\"".data ++
          ("img-line img-fluid".data ++ ('"' :: rest0 n1 s1)))) := by
      unfold outF1shape
      rw [hbr]
    rw [e]
    apply hasInf_append_right
    apply hasInf_append_right
    apply hasInf_append_right
    exact hasInf_here (pfx_append_self _ _)
  · have e : outF3app alts n2 c2 s2 =
        ((("<img alt=\"".data ++ descOf alts n2 ++ ['"']) ++
            (" name=\"".data ++ (n2 ++ "\" ".data))) ++ ("class=\"".data ++ c2)) ++
          ((' ' :: ("img-line".data ++ (' ' :: "img-fluid".data))) ++
            ('"' :: (" src=\"".data ++ (s2 ++ "\">".data)))) := by
      simp [outF3app, List.append_assoc]
    rw [e]
    exact hasInf_at _ _ _ (pfx_append_self _ _)
  · have e : outF3skip alts n3 c3 s3 =
        ((("<img alt=\"".data ++ descOf alts n3 ++ ['"']) ++
            (" name=\"".data ++ (n3 ++ "\" ".data))) ++ ("class=\"".data ++ (c3 ++ [' ']))) ++
          ("img-fluid".data ++ ('"' :: (" src=\"".data ++ (s3 ++ "\">".data)))) := by
      simp [outF3skip, List.append_assoc]
    rw [e]
    exact hasInf_at _ _ _ (pfx_append_self _ _)

/-- C9 witness on the three canonical shape tags. -/
theorem claim_C9_witness :
    (addAltAttribute [("pic.png".data, "A pic".data)] (tagF1 "shape9".data "x.png".data) =
      outF1shape [("pic.png".data, "A pic".data)] "shape9".data "x.png".data) ∧
    (addAltAttribute [("pic.png".data, "A pic".data)]
        (tagF3 "Shape2".data "pic".data "y.png".data) =
      outF3app [("pic.png".data, "A pic".data)] "Shape2".data "pic".data "y.png".data) ∧
    (addAltAttribute [("pic.png".data, "A pic".data)]
        (tagF3 "shape3".data "x img-line".data "z.png".data) =
      outF3skip [("pic.png".data, "A pic".data)] "shape3".data "x img-line".data "z.png".data) := by
  have h := claim_C9 [("pic.png".data, "A pic".data)] "shape9".data "x.png".data
    "Shape2".data "pic".data "y.png".data "shape3".data "x img-line".data "z.png".data
    (by decide) (by decide) (by decide)
  exact ⟨h.1.1, h.2.1.1, h.2.2.1⟩

/-- ASCII whitespace, the characters Python `str.strip()` removes from the
attribute values this converter reads. -/
def isWs (c : Char) : Bool :=
  c == ' ' || c == '\t' || c == '\n' || c == '\r' || c == '\x0b' || c == '\x0c'

/-- Python `str.strip()`: drop leading and trailing whitespace. -/
def stripL (l : Chars) : Chars :=
  ((l.dropWhile isWs).reverse.dropWhile isWs).reverse

/-- A `<wp:docPr>` element as `extract_alt_text_from_docx` sees it: its
optional `name` and `descr` attributes (`attrib.get` with default `""` is
modelled by `Option.getD`). -/
structure DocPr where
  name : Option Chars
  descr : Option Chars

/-- Python dict assignment `d[k] = v`: replace the value in place if the key
is present, else append the pair. -/
def dictInsert : List (Chars × Chars) → Chars → Chars → List (Chars × Chars)
  | [], k, v => [(k, v)]
  | (k2, v2) :: rest, k, v =>
    if k2 = k then (k2, v) :: rest else (k2, v2) :: dictInsert rest k v

/-- One iteration of the `docPr` loop of `extract_alt_text_from_docx`
(src/app.py lines 51-58): strip both attributes, record the pair only when
both are non-blank. -/
def extractStep (alts : List (Chars × Chars)) (e : DocPr) : List (Chars × Chars) :=
  if stripL (e.descr.getD []) ≠ [] ∧ stripL (e.name.getD []) ≠ [] then
    dictInsert alts (stripL (e.name.getD [])) (stripL (e.descr.getD []))
  else alts

/-- The alt-text index built by `extract_alt_text_from_docx` from the list of
`docPr` elements found in the document. -/
def extractAltText (es : List DocPr) : List (Chars × Chars) :=
  es.foldl extractStep []

/-- The entry a single element contributes: `some (name, descr)` when both
stripped attributes are non-blank, else `none`. -/
def entryOf (e : DocPr) : Option (Chars × Chars) :=
  if stripL (e.descr.getD []) ≠ [] ∧ stripL (e.name.getD []) ≠ [] then
    some (stripL (e.name.getD []), stripL (e.descr.getD []))
  else none

theorem dictGet_dictInsert (d : List (Chars × Chars)) (k v k2 : Chars) :
    dictGet (dictInsert d k v) k2 = if k = k2 then some v else dictGet d k2 := by
  induction d with
  | nil =>
    by_cases h : k = k2 <;> simp [dictInsert, dictGet, h]
  | cons q rest ih =>
    obtain ⟨a, b⟩ := q
    by_cases ha : a = k
    · subst ha
      by_cases h : a = k2 <;> simp [dictInsert, dictGet, h]
    · unfold dictInsert
      rw [if_neg ha]
      by_cases h2 : a = k2
      · subst h2
        have hk : ¬ k = a := fun he => ha he.symm
        simp [dictGet, hk]
      · simp [dictGet, h2, ih]

theorem mem_dictInsert : ∀ (d : List (Chars × Chars)) (k v : Chars)
    (p : Chars × Chars), p ∈ dictInsert d k v → (p.1 = k ∧ p.2 = v) ∨ p ∈ d := by
  intro d
  induction d with
  | nil =>
    intro k v p hp
    simp [dictInsert] at hp
    subst hp
    exact Or.inl ⟨rfl, rfl⟩
  | cons q rest ih =>
    intro k v p hp
    obtain ⟨a, b⟩ := q
    unfold dictInsert at hp
    by_cases ha : a = k
    · rw [if_pos ha] at hp
      rcases List.mem_cons.mp hp with h | h
      · subst h
        exact Or.inl ⟨ha, rfl⟩
      · exact Or.inr (List.mem_cons_of_mem _ h)
    · rw [if_neg ha] at hp
      rcases List.mem_cons.mp hp with h | h
      · subst h
        exact Or.inr (List.mem_cons_self _ _)
      · rcases ih k v p h with h2 | h2
        · exact Or.inl h2
        · exact Or.inr (List.mem_cons_of_mem _ h2)

theorem find?_or {α : Type} (p : α → Bool) : ∀ (a b : List α),
    (a ++ b).find? p = ((a.find? p).orElse fun _ => b.find? p) := by
  intro a b
  induction a with
  | nil => rfl
  | cons x xs ih =>
    by_cases h : p x = true
    · simp [List.find?_cons_of_pos _ h, Option.orElse]
    · simp [List.find?_cons_of_neg _ h, ih]

theorem dictGet_foldl (es : List DocPr) : ∀ (acc : List (Chars × Chars)) (k : Chars),
    dictGet (es.foldl extractStep acc) k =
      match (es.filterMap entryOf).reverse.find? (fun q => decide (q.1 = k)) with
      | some q => some q.2
      | none => dictGet acc k := by
  induction es with
  | nil => intro acc k; rfl
  | cons e rest ih =>
    intro acc k
    have hfold : (e :: rest).foldl extractStep acc = rest.foldl extractStep (extractStep acc e) := rfl
    rw [hfold, ih]
    by_cases hc : stripL (e.descr.getD []) ≠ [] ∧ stripL (e.name.getD []) ≠ []
    · have hstep : extractStep acc e =
          dictInsert acc (stripL (e.name.getD [])) (stripL (e.descr.getD [])) := by
        unfold extractStep
        rw [if_pos hc]
      have hent : entryOf e = some (stripL (e.name.getD []), stripL (e.descr.getD [])) := by
        unfold entryOf
        rw [if_pos hc]
      have hfm : (e :: rest).filterMap entryOf =
          (stripL (e.name.getD []), stripL (e.descr.getD [])) :: rest.filterMap entryOf := by
        rw [List.filterMap_cons, hent]
      rw [hfm, List.reverse_cons, find?_or]
      cases hfind : (rest.filterMap entryOf).reverse.find? (fun q => decide (q.1 = k)) with
      | some q => simp [Option.orElse]
      | none =>
        simp only [Option.orElse, hstep, dictGet_dictInsert]
        by_cases hk : stripL (e.name.getD []) = k
        · simp [List.find?, hk]
        · simp [List.find?, hk]
    · have hstep : extractStep acc e = acc := by
        unfold extractStep
        rw [if_neg hc]
      have hent : entryOf e = none := by
        unfold entryOf
        rw [if_neg hc]
      have hfm : (e :: rest).filterMap entryOf = rest.filterMap entryOf := by
        rw [List.filterMap_cons, hent]
      rw [hfm, hstep]

theorem extractAltText_mem (es : List DocPr) :
    ∀ (acc : List (Chars × Chars)), (∀ p ∈ acc, p.1 ≠ [] ∧ p.2 ≠ []) →
      ∀ p ∈ es.foldl extractStep acc, p.1 ≠ [] ∧ p.2 ≠ [] := by
  induction es with
  | nil => intro acc hacc p hp; exact hacc p hp
  | cons e rest ih =>
    intro acc hacc p hp
    have hfold : (e :: rest).foldl extractStep acc = rest.foldl extractStep (extractStep acc e) := rfl
    rw [hfold] at hp
    refine ih (extractStep acc e) ?_ p hp
    intro q hq
    unfold extractStep at hq
    by_cases hc : stripL (e.descr.getD []) ≠ [] ∧ stripL (e.name.getD []) ≠ []
    · rw [if_pos hc] at hq
      rcases mem_dictInsert acc _ _ q hq with h2 | h2
      · exact ⟨h2.1 ▸ hc.2, h2.2 ▸ hc.1⟩
      · exact hacc q h2
    · rw [if_neg hc] at hq
      exact hacc q hq

/-- C6: the alt-text index is exactly determined by the elements with both
attributes non-blank after stripping: every lookup returns the description of
the last such element carrying that name (Python dict assignment overwrites),
every stored pair has a non-blank name and description, and an element blank
or missing in either attribute leaves the index unchanged (and extraction is
a total function, so it cannot fail on such an element). -/
theorem claim_C6 (es : List DocPr) :
    (∀ k, dictGet (extractAltText es) k =
      match (es.filterMap entryOf).reverse.find? (fun q => decide (q.1 = k)) with
      | some q => some q.2
      | none => none) ∧
    (∀ p ∈ extractAltText es, p.1 ≠ [] ∧ p.2 ≠ []) ∧
    (∀ (acc : List (Chars × Chars)) (e : DocPr), entryOf e = none → extractStep acc e = acc) := by
  refine ⟨fun k => ?_, extractAltText_mem es [] (by intro p hp; simp at hp), ?_⟩
  · have h := dictGet_foldl es [] k
    unfold extractAltText
    rw [h]
    cases (es.filterMap entryOf).reverse.find? (fun q => decide (q.1 = k)) with
    | some q => rfl
    | none => rfl
  · intro acc e h
    unfold entryOf at h
    unfold extractStep
    by_cases hc : stripL (e.descr.getD []) ≠ [] ∧ stripL (e.name.getD []) ≠ []
    · rw [if_pos hc] at h
      exact absurd h (by simp)
    · rw [if_neg hc]

/-- C6 witness on a two-element document: one annotated element and one with
a blank description; only the first contributes, and it survives lookup. -/
theorem claim_C6_witness :
    dictGet (extractAltText
        [⟨some "pic1".data, some " A pic ".data⟩, ⟨some "pic2".data, some "  ".data⟩])
      "pic1".data = some "A pic".data ∧
    extractStep [] ⟨some "pic2".data, some "  ".data⟩ = [] := by
  have h := claim_C6
    [⟨some "pic1".data, some " A pic ".data⟩, ⟨some "pic2".data, some "  ".data⟩]
  refine ⟨?_, h.2.2 [] ⟨some "pic2".data, some "  ".data⟩ (by decide)⟩
  rw [h.1 "pic1".data]
  decide

/-- A namespace-declaration event stream as `ET.iterparse` delivers it to
`get_namespaces`: either a prefix/URI pair or the point at which parsing
raises. -/
inductive NsEvent where
  | ns : Chars × Chars → NsEvent
  | fail : NsEvent
deriving DecidableEq

/-- The accumulation loop of `get_namespaces` (src/app.py lines 27-32): each
event assigns into the dict; the first parse failure is caught by the
`except` and the dict accumulated so far is returned. -/
def getNamespacesStream : List NsEvent → List (Chars × Chars) → List (Chars × Chars)
  | [], acc => acc
  | NsEvent.fail :: _, acc => acc
  | NsEvent.ns p :: rest, acc => getNamespacesStream rest (dictInsert acc p.1 p.2)

/-- The result of `get_namespaces` on an event stream. -/
def getNamespaces (evs : List NsEvent) : List (Chars × Chars) :=
  getNamespacesStream evs []

/-- The result of `extract_alt_text_from_docx` when opening or eagerly
parsing `word/document.xml` fails before any element is seen (`none`), or
succeeds with the given elements (`some`): the `except` at src/app.py
line 59 returns the still-empty dict in the failure case. -/
def extractAltTextRun (content : Option (List DocPr)) : List (Chars × Chars) :=
  match content with
  | none => []
  | some es => extractAltText es

theorem getNamespacesStream_fail_mid (post : List NsEvent) :
    ∀ (pre : List NsEvent), NsEvent.fail ∉ pre → ∀ (acc : List (Chars × Chars)),
      getNamespacesStream (pre ++ NsEvent.fail :: post) acc = getNamespacesStream pre acc := by
  intro pre
  induction pre with
  | nil => intro h acc; rfl
  | cons e rest ih =>
    intro h acc
    cases e with
    | fail => exact absurd (List.mem_cons_self _ _) h
    | ns p =>
      have h2 : NsEvent.fail ∉ rest := fun hm => h (List.mem_cons_of_mem _ hm)
      exact ih h2 (dictInsert acc p.1 p.2)

/-- C7 counterexample: when the XML parse raises after one namespace
declaration has been streamed, `get_namespaces` returns the partial
one-entry table, not the empty table: the `except` at src/app.py line 31
keeps whatever the incremental `iterparse` loop already accumulated. -/
theorem claim_C7_counterexample :
    getNamespaces [NsEvent.ns ("wp".data, "u1".data), NsEvent.fail] =
      [("wp".data, "u1".data)] ∧
    ([("wp".data, "u1".data)] : List (Chars × Chars)) ≠ [] := by
  exact ⟨rfl, by decide⟩

/-- C7 (amended): neither extractor can raise (both are total and swallow the
failure event), and on failure `get_namespaces` returns exactly the table
accumulated before the failure — the empty table only when the parse fails
before any declaration — while `extract_alt_text_from_docx`, which parses
eagerly, returns the empty index on any open/parse failure. -/
theorem claim_C7 (pre post : List NsEvent) (h : NsEvent.fail ∉ pre) :
    getNamespaces (pre ++ NsEvent.fail :: post) = getNamespaces pre ∧
    getNamespaces (NsEvent.fail :: post) = [] ∧
    extractAltTextRun none = [] := by
  exact ⟨getNamespacesStream_fail_mid post pre h [], rfl, rfl⟩

/-- C7 witness: one declaration before the failure. -/
theorem claim_C7_witness :
    getNamespaces ([NsEvent.ns ("wp".data, "u1".data)] ++ NsEvent.fail :: []) =
      getNamespaces [NsEvent.ns ("wp".data, "u1".data)] ∧
    getNamespaces (NsEvent.fail :: []) = [] ∧
    extractAltTextRun none = [] :=
  claim_C7 [NsEvent.ns ("wp".data, "u1".data)] [] (by decide)

/-- Python `str.replace(old, new)` for a non-empty `old`: left-to-right,
non-overlapping. -/
def replaceRule (o n : Chars) (l : Chars) : Option (Chars × Chars) :=
  if o ≠ [] ∧ pfx o l = true then some (n, l.drop o.length) else none

/-- All-occurrence replacement, `s.replace(o, n)`. -/
def replaceAll (o n l : Chars) : Chars := scan (replaceRule o n) l

/-- `os.path.dirname`: everything before the last slash (empty when there is
no slash). -/
def dirname (l : Chars) : Chars := l.take (l.length - (basename l).length - 1)

/-- `os.path.join` for the shapes this program builds (a possibly empty
directory joined with a relative file name). -/
def pathJoin (d f : Chars) : Chars := if d = [] then f else d ++ ('/' :: f)

/-- Outcome of running a piece of Python code: a returned value, or an
uncaught exception identified by its type name. -/
inductive PyResult (α : Type) where
  | ok : α → PyResult α
  | exn : Chars → PyResult α

/-- A file system holding exactly one file. -/
def fsOne (path content : Chars) : Chars → Option Chars :=
  fun p => if p = path then some content else none

/-- The run of `optimize_html` (src/app.py lines 67-160) over a file system,
returning the updated file system and the Python return value: the error
string when the path does not end in `.html` (case-insensitive) or when the
`try` body raises, and otherwise the path of the rewritten file. The body
of the rewrite is abstracted as `transform` (its passes are modelled and
verified separately); the point here is the control flow: the function
returns an error STRING, never raises to its caller. -/
def optimizeHtmlRun (transform : Chars → Chars) (fs : Chars → Option Chars)
    (htmlFile : Chars) : (Chars → Option Chars) × Chars :=
  if sfx ".html".data (htmlFile.map asciiLower) = false then
    (fs, "❌ Error: The provided file is not an HTML file: ".data ++ htmlFile)
  else
    match fs htmlFile with
    | none => (fs, "❌ Error processing HTML file: ".data)
    | some content =>
      (fun p => if p = htmlFile then some (transform content) else fs p, htmlFile)

/-- The run of `package_conversion` (src/app.py lines 181-208) on the path it
is handed as `responsive_html_file`: reading that path raises
`FileNotFoundError` when no such file exists (the image-extraction helper
has its own `try` and never raises); otherwise the `src` relink is applied
and the zip name is derived by `str.replace`. -/
def packageConversionRun (fs : Chars → Option Chars) (htmlPath : Chars) :
    PyResult ((Chars → Option Chars) × Chars) :=
  match fs htmlPath with
  | none => PyResult.exn "FileNotFoundError".data
  | some content =>
    PyResult.ok (fun p => if p = htmlPath then some (relink content) else fs p,
      replaceAll "_responsive.html".data "_package.zip".data htmlPath)

/-- The run of `convert_docx_to_html` (src/app.py lines 210-249) with the
LibreOffice subprocess assumed to succeed in place: the expected HTML path is
derived by the case-sensitive `str.replace(".docx", ".html")` on the
basename, `optimize_html`'s return value is passed UNCHECKED to
`package_conversion`, and the `except` clause catches only
`subprocess.CalledProcessError`, so any other exception escapes to the
caller. -/
def convertDocxToHtmlRun (transform : Chars → Chars) (fs : Chars → Option Chars)
    (docx : Chars) : PyResult Chars :=
  if (fs docx).isNone then
    PyResult.ok ("❌ Error: File \x27".data ++ docx ++ "\x27 not found.".data)
  else
    if (fs (pathJoin (dirname docx)
        (replaceAll ".docx".data ".html".data (basename docx)))).isSome then
      match packageConversionRun
          (optimizeHtmlRun transform fs (pathJoin (dirname docx)
            (replaceAll ".docx".data ".html".data (basename docx)))).1
          (optimizeHtmlRun transform fs (pathJoin (dirname docx)
            (replaceAll ".docx".data ".html".data (basename docx)))).2 with
      | PyResult.ok r => PyResult.ok r.2
      | PyResult.exn e =>
        if e = "CalledProcessError".data then
          PyResult.ok "❌ Error during conversion: ".data
        else PyResult.exn e
    else
      PyResult.ok "❌ Error: Conversion failed. HTML file not created.".data

/-- C2: the pipeline does NOT halt with a failure value when the rewrite step
fails. For an uploaded `/tmp/up/report.DOCX` (uppercase extension) the
case-sensitive `.replace(".docx", ".html")` leaves the name unchanged, the
"converted" path exists (it is the DOCX itself), `optimize_html` returns its
not-an-HTML-file error string, and `convert_docx_to_html` passes that string
to `package_conversion` as a file path without checking it: opening it raises
`FileNotFoundError`, which the `except subprocess.CalledProcessError` clause
does not catch, so the conversion dies with an uncaught exception instead of
returning a failure value — for every rewrite transform and file content. -/
theorem claim_C2 (transform : Chars → Chars) (content : Chars) :
    convertDocxToHtmlRun transform (fsOne "/tmp/up/report.DOCX".data content)
        "/tmp/up/report.DOCX".data = PyResult.exn "FileNotFoundError".data ∧
    (optimizeHtmlRun transform (fsOne "/tmp/up/report.DOCX".data content)
        "/tmp/up/report.DOCX".data).2 =
      "❌ Error: The provided file is not an HTML file: /tmp/up/report.DOCX".data ∧
    (∀ z, convertDocxToHtmlRun transform (fsOne "/tmp/up/report.DOCX".data content)
        "/tmp/up/report.DOCX".data ≠ PyResult.ok z) := by
  have h1 : convertDocxToHtmlRun transform (fsOne "/tmp/up/report.DOCX".data content)
      "/tmp/up/report.DOCX".data = PyResult.exn "FileNotFoundError".data := rfl
  refine ⟨h1, rfl, fun z hz => ?_⟩
  rw [h1] at hz
  exact PyResult.noConfusion hz

end DocxConv
